import Mathlib

/-!
# Discovery v4 wire-message codec: shallow embedding and verification

Shallow embedding of `src/disc/v4/message.rs` (the discovery v4 wire-message
codec) together with the semantics of the RLP serialization primitives it uses
from its `fastrlp` dependency, and proofs of the specification claims about it.

Byte buffers are modelled as `List Nat` with entries `< 256`.  A Rust decoder
of type `fn decode(buf: &mut &[u8]) -> Result<Self, DecodeError>` becomes a
pure function `Bytes → Except DecodeError (α × Bytes)` returning the decoded
value together with the remaining (unconsumed) suffix of the buffer; on error
the Rust decoders leave the caller's slice untouched, which the pure embedding
reflects by simply not producing a remainder.
-/

deriving instance DecidableEq for Except

namespace Devp2p

/-- A byte buffer (`&[u8]` / `Vec<u8>`); entries are byte values. -/
abbrev Bytes := List Nat

/-- `fastrlp::DecodeError`, the error type of every decoder in the source. -/
inductive DecodeError where
  | overflow
  | leadingZero
  | inputTooShort
  | nonCanonicalSingleByte
  | nonCanonicalSize
  | unexpectedLength
  | unexpectedString
  | unexpectedList
  | listLengthMismatch (expected got : Nat)
  | custom (msg : String)
deriving DecidableEq, Repr

/-- The discriminant test performed by the source's
`if let DecodeError::ListLengthMismatch { .. } = e` retry guard. -/
def DecodeError.isListLengthMismatch : DecodeError → Bool
  | .listLengthMismatch _ _ => true
  | _ => false

/-- `fastrlp::Header`: the decoded RLP length prefix of one item. -/
structure Header where
  isList : Bool
  payloadLength : Nat
deriving DecidableEq, Repr

/-- Big-endian digits of `n` in base 256, with structural fuel so that the
definition reduces in the kernel; `beBytes` instantiates the fuel. -/
def beBytesAux : Nat → Nat → Bytes
  | 0, _ => []
  | fuel + 1, n => if n = 0 then [] else beBytesAux fuel (n / 256) ++ [n % 256]

/-- The minimal big-endian byte representation of `n` (empty for `0`):
`to_be_bytes` with the leading zero bytes stripped, as the fastrlp integer
encoders produce. -/
def beBytes (n : Nat) : Bytes := beBytesAux n n

/-- The big-endian value of a byte string (`from_be_bytes` after fastrlp's
`static_left_pad`). -/
def beVal (bs : Bytes) : Nat := bs.foldl (fun acc b => acc * 256 + b) 0

/-- `fastrlp::Header::encode`: a single tag byte (`0x80`/`0xC0` plus the
payload length) for payloads shorter than 56 bytes, otherwise a
length-of-length tag (`0xB7`/`0xF7` plus the length of the big-endian length)
followed by the big-endian payload length. -/
def headerEncode (h : Header) : Bytes :=
  let tag := if h.isList then 0xC0 else 0x80
  if h.payloadLength < 56 then
    [tag + h.payloadLength]
  else
    (tag + 0x37 + (beBytes h.payloadLength).length) :: beBytes h.payloadLength

/-- `impl Encodable for [u8]` (and `[u8; N]`, which delegates to it): a single
byte below `0x80` is emitted as itself, every other byte string is emitted as
a string header followed by the raw bytes. -/
def encodeBytes (s : Bytes) : Bytes :=
  match s with
  | [b] => if b < 0x80 then [b] else headerEncode ⟨false, 1⟩ ++ [b]
  | _ => headerEncode ⟨false, s.length⟩ ++ s

/-- The fastrlp unsigned-integer encoders (`impl Encodable for u64 / u16`):
strip the leading zero bytes of the big-endian representation and encode the
result as a byte string (so `0` becomes the empty string `0x80`). -/
def encodeNat (n : Nat) : Bytes := encodeBytes (beBytes n)

/-- `fastrlp::Header::decode`.  Mirrors the source branch for branch:
a byte below `0x80` is a single-byte string whose payload is the byte itself
(the buffer is not advanced past it); `0x80..=0xB7` is a short string (with
the non-canonical-single-byte check when the payload length is 1);
`0xB8..=0xBF` is a long string (length-of-length bytes, leading-zero and
`< 56` canonicality checks); `0xC0..=0xF7` a short list; `0xF8..=0xFF` a long
list.  Every successful branch finally checks that the remaining buffer holds
at least the announced payload. -/
def headerDecode (buf : Bytes) : Except DecodeError (Header × Bytes) :=
  match buf with
  | [] => .error .inputTooShort
  | b :: rest =>
    if b < 0x80 then
      if (b :: rest).length < 1 then .error .inputTooShort
      else .ok (⟨false, 1⟩, b :: rest)
    else if b < 0xB8 then
      if b - 0x80 = 1 then
        match rest with
        | [] => .error .inputTooShort
        | c :: cs =>
          if c < 0x80 then .error .nonCanonicalSingleByte
          else if (c :: cs).length < 1 then .error .inputTooShort
          else .ok (⟨false, 1⟩, c :: cs)
      else if rest.length < b - 0x80 then .error .inputTooShort
      else .ok (⟨false, b - 0x80⟩, rest)
    else if b < 0xC0 then
      if rest.length < b - 0xB7 then .error .inputTooShort
      else if (rest.take (b - 0xB7)).head? = some 0 then .error .leadingZero
      else if beVal (rest.take (b - 0xB7)) < 56 then .error .nonCanonicalSize
      else if (rest.drop (b - 0xB7)).length < beVal (rest.take (b - 0xB7)) then
        .error .inputTooShort
      else .ok (⟨false, beVal (rest.take (b - 0xB7))⟩, rest.drop (b - 0xB7))
    else if b < 0xF8 then
      if rest.length < b - 0xC0 then .error .inputTooShort
      else .ok (⟨true, b - 0xC0⟩, rest)
    else
      if rest.length < b - 0xF7 then .error .inputTooShort
      else if (rest.take (b - 0xF7)).head? = some 0 then .error .leadingZero
      else if beVal (rest.take (b - 0xF7)) < 56 then .error .nonCanonicalSize
      else if (rest.drop (b - 0xF7)).length < beVal (rest.take (b - 0xF7)) then
        .error .inputTooShort
      else .ok (⟨true, beVal (rest.take (b - 0xF7))⟩, rest.drop (b - 0xF7))

/-- The fastrlp unsigned-integer decoders (`impl Decodable for u64 / u16`):
a string header, at most `maxBytes` payload bytes (else `Overflow`), no
leading zero byte (else `LeadingZero`), value read big-endian. -/
def decodeUintSized (maxBytes : Nat) (buf : Bytes) :
    Except DecodeError (Nat × Bytes) :=
  match headerDecode buf with
  | .error e => .error e
  | .ok (h, rest) =>
    if h.isList then .error .unexpectedList
    else if maxBytes < h.payloadLength then .error .overflow
    else if (rest.take h.payloadLength).head? = some 0 then .error .leadingZero
    else .ok (beVal (rest.take h.payloadLength), rest.drop h.payloadLength)

/-- `impl Decodable for u64`. -/
def decodeU64 : Bytes → Except DecodeError (Nat × Bytes) := decodeUintSized 8

/-- `impl Decodable for u16`. -/
def decodeU16 : Bytes → Except DecodeError (Nat × Bytes) := decodeUintSized 2

/-- `impl Decodable for [u8; N]` (also the shape of the `H256` and node-id
decoders): a string header whose payload length is exactly `n`. -/
def decodeByteArray (n : Nat) (buf : Bytes) :
    Except DecodeError (Bytes × Bytes) :=
  match headerDecode buf with
  | .error e => .error e
  | .ok (h, rest) =>
    if h.isList then .error .unexpectedList
    else if h.payloadLength ≠ n then .error .unexpectedLength
    else .ok (rest.take n, rest.drop n)

/-- `pub struct Ip(pub IpAddr)`: the newtype and `std::net::IpAddr` collapsed
into one tagged union of a 4-octet and a 16-octet address. -/
inductive Ip where
  | v4 (octets : Bytes)
  | v6 (octets : Bytes)
deriving DecidableEq, Repr

/-- The `Ip` values representable in the Rust source: octet arrays of the
right arity whose entries are bytes. -/
def Ip.WF : Ip → Prop
  | .v4 o => o.length = 4 ∧ ∀ b ∈ o, b < 256
  | .v6 o => o.length = 16 ∧ ∀ b ∈ o, b < 256

instance (a : Ip) : Decidable a.WF :=
  match a with
  | .v4 o => inferInstanceAs (Decidable (o.length = 4 ∧ ∀ b ∈ o, b < 256))
  | .v6 o => inferInstanceAs (Decidable (o.length = 16 ∧ ∀ b ∈ o, b < 256))

/-- `impl Encodable for Ip`: the 4 or 16 octets encoded as a byte string. -/
def Ip.encode : Ip → Bytes
  | .v4 o => encodeBytes o
  | .v6 o => encodeBytes o

/-- `impl Decodable for Ip`: peek at the header of the item (on a copy of the
buffer, without consuming it) and branch on its payload length — `0` is the
`Custom("empty")` error, `4`/`16` re-decode the item as a 4- or 16-octet
array, any other length is the `Custom("wrong IP address length")` error. -/
def Ip.decode (buf : Bytes) : Except DecodeError (Ip × Bytes) :=
  match headerDecode buf with
  | .error e => .error e
  | .ok (h, _) =>
    if h.payloadLength = 0 then .error (.custom "empty")
    else if h.payloadLength = 4 then
      match decodeByteArray 4 buf with
      | .error e => .error e
      | .ok (o, rest) => .ok (.v4 o, rest)
    else if h.payloadLength = 16 then
      match decodeByteArray 16 buf with
      | .error e => .error e
      | .ok (o, rest) => .ok (.v6 o, rest)
    else .error (.custom "wrong IP address length")

/-- `pub struct Endpoint`. -/
structure Endpoint where
  address : Ip
  udp_port : Nat
  tcp_port : Nat
deriving DecidableEq, Repr

/-- The `Endpoint` values representable in the Rust source (`u16` ports). -/
def Endpoint.WF (e : Endpoint) : Prop :=
  e.address.WF ∧ e.udp_port < 2 ^ 16 ∧ e.tcp_port < 2 ^ 16

instance (e : Endpoint) : Decidable e.WF :=
  inferInstanceAs (Decidable (_ ∧ _ ∧ _))

/-- `#[derive(RlpEncodable)]` on `Endpoint`: a list of the three fields in
declaration order. -/
def Endpoint.encode (e : Endpoint) : Bytes :=
  let payload :=
    Ip.encode e.address ++ encodeNat e.udp_port ++ encodeNat e.tcp_port
  headerEncode ⟨true, payload.length⟩ ++ payload

/-- `#[derive(RlpDecodable)]` on `Endpoint`: a list header, the three fields
decoded in order from the remainder, then the check that the fields consumed
exactly the announced payload (else `ListLengthMismatch`). -/
def Endpoint.decode (buf : Bytes) : Except DecodeError (Endpoint × Bytes) :=
  match headerDecode buf with
  | .error e => .error e
  | .ok (h, b0) =>
    if h.isList = false then .error .unexpectedString
    else
      match Ip.decode b0 with
      | .error e => .error e
      | .ok (address, b1) =>
        match decodeU16 b1 with
        | .error e => .error e
        | .ok (udp, b2) =>
          match decodeU16 b2 with
          | .error e => .error e
          | .ok (tcp, b3) =>
            if b0.length - b3.length ≠ h.payloadLength then
              .error (.listLengthMismatch h.payloadLength (b0.length - b3.length))
            else .ok (⟨address, udp, tcp⟩, b3)

/-- Modelled from the spec: `NodeId` is defined in the repository outside the
given source file ("an opaque fixed-size public-key-derived identifier …
treated as an opaque byte array by this core"); discovery v4 node ids are
64-byte values, carried on the wire as a fixed 64-byte string. -/
structure NodeId where
  bytes : Bytes
deriving DecidableEq, Repr

/-- The representable `NodeId` values: 64 bytes. -/
def NodeId.WF (n : NodeId) : Prop :=
  n.bytes.length = 64 ∧ ∀ b ∈ n.bytes, b < 256

instance (n : NodeId) : Decidable n.WF :=
  inferInstanceAs (Decidable (_ ∧ _))

/-- Modelled from the spec: the node-id codec (a fixed 64-byte string). -/
def NodeId.encode (n : NodeId) : Bytes := encodeBytes n.bytes

/-- Modelled from the spec: the node-id decoder (a fixed 64-byte string). -/
def NodeId.decode (buf : Bytes) : Except DecodeError (NodeId × Bytes) :=
  match decodeByteArray 64 buf with
  | .error e => .error e
  | .ok (bs, rest) => .ok (⟨bs⟩, rest)

/-- Modelled from the spec: `NodeRecord` is defined in the repository outside
the given source file; per the spec's wire format a Neighbours node entry is
the 4-field record `[address, udp_port, tcp_port, id]`. -/
structure NodeRecord where
  address : Ip
  udp_port : Nat
  tcp_port : Nat
  id : NodeId
deriving DecidableEq, Repr

/-- The representable `NodeRecord` values. -/
def NodeRecord.WF (r : NodeRecord) : Prop :=
  r.address.WF ∧ r.udp_port < 2 ^ 16 ∧ r.tcp_port < 2 ^ 16 ∧ r.id.WF

instance (r : NodeRecord) : Decidable r.WF :=
  inferInstanceAs (Decidable (_ ∧ _ ∧ _ ∧ _))

/-- Modelled from the spec: the `NodeRecord` encoder, a 4-field list in the
spec's wire order `[address, udp_port, tcp_port, id]`. -/
def NodeRecord.encode (r : NodeRecord) : Bytes :=
  let payload :=
    Ip.encode r.address ++ encodeNat r.udp_port ++ encodeNat r.tcp_port ++
      NodeId.encode r.id
  headerEncode ⟨true, payload.length⟩ ++ payload

/-- Modelled from the spec: the `NodeRecord` decoder, with the same derived
shape as the other record decoders. -/
def NodeRecord.decode (buf : Bytes) : Except DecodeError (NodeRecord × Bytes) :=
  match headerDecode buf with
  | .error e => .error e
  | .ok (h, b0) =>
    if h.isList = false then .error .unexpectedString
    else
      match Ip.decode b0 with
      | .error e => .error e
      | .ok (address, b1) =>
        match decodeU16 b1 with
        | .error e => .error e
        | .ok (udp, b2) =>
          match decodeU16 b2 with
          | .error e => .error e
          | .ok (tcp, b3) =>
            match NodeId.decode b3 with
            | .error e => .error e
            | .ok (nid, b4) =>
              if b0.length - b4.length ≠ h.payloadLength then
                .error (.listLengthMismatch h.payloadLength (b0.length - b4.length))
              else .ok (⟨address, udp, tcp, nid⟩, b4)

/-- `pub struct FindNodeMessage`. -/
structure FindNodeMessage where
  id : NodeId
  expire : Nat
deriving DecidableEq, Repr

/-- The representable `FindNodeMessage` values (`u64` expire). -/
def FindNodeMessage.WF (m : FindNodeMessage) : Prop :=
  m.id.WF ∧ m.expire < 2 ^ 64

instance (m : FindNodeMessage) : Decidable m.WF :=
  inferInstanceAs (Decidable (_ ∧ _))

/-- `#[derive(RlpEncodable)]` on `FindNodeMessage`. -/
def FindNodeMessage.encode (m : FindNodeMessage) : Bytes :=
  let payload := NodeId.encode m.id ++ encodeNat m.expire
  headerEncode ⟨true, payload.length⟩ ++ payload

/-- `#[derive(RlpDecodable)]` on `FindNodeMessage`. -/
def FindNodeMessage.decode (buf : Bytes) :
    Except DecodeError (FindNodeMessage × Bytes) :=
  match headerDecode buf with
  | .error e => .error e
  | .ok (h, b0) =>
    if h.isList = false then .error .unexpectedString
    else
      match NodeId.decode b0 with
      | .error e => .error e
      | .ok (nid, b1) =>
        match decodeU64 b1 with
        | .error e => .error e
        | .ok (expire, b2) =>
          if b0.length - b2.length ≠ h.payloadLength then
            .error (.listLengthMismatch h.payloadLength (b0.length - b2.length))
          else .ok (⟨nid, expire⟩, b2)

/-- The element loop of `impl<T> Decodable for Vec<T>`: decode elements from
the payload view until it is exhausted.  The Rust `while` loop makes progress
because every successful fastrlp decode consumes at least one byte, so a fuel
of the view's length (as `decodeVec` passes) makes the fuel-exhaustion branch
unreachable for the decoders used here. -/
def decodeListAux {α : Type} (dec : Bytes → Except DecodeError (α × Bytes)) :
    Nat → Bytes → Except DecodeError (List α)
  | _, [] => .ok []
  | 0, _ :: _ => .error (.custom "no progress")
  | fuel + 1, b :: bs =>
    match dec (b :: bs) with
    | .error e => .error e
    | .ok (x, rest) =>
      match decodeListAux dec fuel rest with
      | .error e => .error e
      | .ok xs => .ok (x :: xs)

/-- `impl<T> Decodable for Vec<T>`: a list header, then elements decoded from
(exactly) the payload view until it is exhausted. -/
def decodeVec {α : Type} (dec : Bytes → Except DecodeError (α × Bytes))
    (buf : Bytes) : Except DecodeError (List α × Bytes) :=
  match headerDecode buf with
  | .error e => .error e
  | .ok (h, rest) =>
    if h.isList = false then .error .unexpectedString
    else
      match decodeListAux dec (rest.take h.payloadLength).length
          (rest.take h.payloadLength) with
      | .error e => .error e
      | .ok xs => .ok (xs, rest.drop h.payloadLength)

/-- `impl<T> Encodable for Vec<T>`: a list header over the concatenated
element encodings. -/
def encodeNodeList (rs : List NodeRecord) : Bytes :=
  headerEncode ⟨true, ((rs.map NodeRecord.encode).flatten).length⟩ ++
    (rs.map NodeRecord.encode).flatten

/-- `pub struct NeighboursMessage`. -/
structure NeighboursMessage where
  nodes : List NodeRecord
  expire : Nat
deriving DecidableEq, Repr

/-- The representable `NeighboursMessage` values; the bound on the node count
reflects that a Rust `Vec` in an in-memory datagram is far below `2 ^ 56`
elements (its byte length alone is bounded by `usize`). -/
def NeighboursMessage.WF (m : NeighboursMessage) : Prop :=
  (∀ r ∈ m.nodes, r.WF) ∧ m.expire < 2 ^ 64 ∧ m.nodes.length < 2 ^ 56

instance (m : NeighboursMessage) : Decidable m.WF :=
  inferInstanceAs (Decidable (_ ∧ _ ∧ _))

/-- `#[derive(RlpEncodable)]` on `NeighboursMessage`. -/
def NeighboursMessage.encode (m : NeighboursMessage) : Bytes :=
  let payload := encodeNodeList m.nodes ++ encodeNat m.expire
  headerEncode ⟨true, payload.length⟩ ++ payload

/-- `#[derive(RlpDecodable)]` on `NeighboursMessage`. -/
def NeighboursMessage.decode (buf : Bytes) :
    Except DecodeError (NeighboursMessage × Bytes) :=
  match headerDecode buf with
  | .error e => .error e
  | .ok (h, b0) =>
    if h.isList = false then .error .unexpectedString
    else
      match decodeVec NodeRecord.decode b0 with
      | .error e => .error e
      | .ok (nodes, b1) =>
        match decodeU64 b1 with
        | .error e => .error e
        | .ok (expire, b2) =>
          if b0.length - b2.length ≠ h.payloadLength then
            .error (.listLengthMismatch h.payloadLength (b0.length - b2.length))
          else .ok (⟨nodes, expire⟩, b2)

/-- `pub struct PingMessage`: the logical value, without the wire version and
without any ENR sequence. -/
structure PingMessage where
  «from» : Endpoint
  «to» : Endpoint
  expire : Nat
deriving DecidableEq, Repr

/-- The representable `PingMessage` values. -/
def PingMessage.WF (m : PingMessage) : Prop :=
  m.«from».WF ∧ m.«to».WF ∧ m.expire < 2 ^ 64

instance (m : PingMessage) : Decidable m.WF :=
  inferInstanceAs (Decidable (_ ∧ _ ∧ _))

/-- `struct PingMessageE`: the encode-side wire shape, with the explicit
version field (the source holds the fields by reference; values here). -/
structure PingMessageE where
  version : Nat
  «from» : Endpoint
  «to» : Endpoint
  expire : Nat
deriving DecidableEq, Repr

/-- `#[derive(RlpEncodable)]` on `PingMessageE`. -/
def PingMessageE.encode (m : PingMessageE) : Bytes :=
  let payload :=
    encodeNat m.version ++ Endpoint.encode m.«from» ++ Endpoint.encode m.«to» ++
      encodeNat m.expire
  headerEncode ⟨true, payload.length⟩ ++ payload

/-- `impl Encodable for PingMessage`: always the 4-field wire shape through
`PingMessageE` with the literal version constant `4`. -/
def PingMessage.encode (m : PingMessage) : Bytes :=
  PingMessageE.encode ⟨4, m.«from», m.«to», m.expire⟩

/-- `struct PingMessageD`: the 4-field decode shape. -/
structure PingMessageD where
  version : Nat
  «from» : Endpoint
  «to» : Endpoint
  expire : Nat
deriving DecidableEq, Repr

/-- `#[derive(RlpDecodable)]` on `PingMessageD`. -/
def PingMessageD.decode (buf : Bytes) :
    Except DecodeError (PingMessageD × Bytes) :=
  match headerDecode buf with
  | .error e => .error e
  | .ok (h, b0) =>
    if h.isList = false then .error .unexpectedString
    else
      match decodeU64 b0 with
      | .error e => .error e
      | .ok (version, b1) =>
        match Endpoint.decode b1 with
        | .error e => .error e
        | .ok (fr, b2) =>
          match Endpoint.decode b2 with
          | .error e => .error e
          | .ok (t, b3) =>
            match decodeU64 b3 with
            | .error e => .error e
            | .ok (expire, b4) =>
              if b0.length - b4.length ≠ h.payloadLength then
                .error (.listLengthMismatch h.payloadLength (b0.length - b4.length))
              else .ok (⟨version, fr, t, expire⟩, b4)

/-- `struct PingMessageDEnr`: the 5-field decode shape with the trailing
`enr_seq`. -/
structure PingMessageDEnr where
  version : Nat
  «from» : Endpoint
  «to» : Endpoint
  expire : Nat
  enr_seq : Nat
deriving DecidableEq, Repr

/-- `#[derive(RlpDecodable)]` on `PingMessageDEnr`. -/
def PingMessageDEnr.decode (buf : Bytes) :
    Except DecodeError (PingMessageDEnr × Bytes) :=
  match headerDecode buf with
  | .error e => .error e
  | .ok (h, b0) =>
    if h.isList = false then .error .unexpectedString
    else
      match decodeU64 b0 with
      | .error e => .error e
      | .ok (version, b1) =>
        match Endpoint.decode b1 with
        | .error e => .error e
        | .ok (fr, b2) =>
          match Endpoint.decode b2 with
          | .error e => .error e
          | .ok (t, b3) =>
            match decodeU64 b3 with
            | .error e => .error e
            | .ok (expire, b4) =>
              match decodeU64 b4 with
              | .error e => .error e
              | .ok (enr, b5) =>
                if b0.length - b5.length ≠ h.payloadLength then
                  .error (.listLengthMismatch h.payloadLength (b0.length - b5.length))
                else .ok (⟨version, fr, t, expire, enr⟩, b5)

/-- `impl Decodable for PingMessage`: try the 4-field shape; on a
`ListLengthMismatch` failure (and only then) retry the same bytes as the
5-field shape; keep only `{from, to, expire}` either way. -/
def PingMessage.decode (buf : Bytes) :
    Except DecodeError (PingMessage × Bytes) :=
  match PingMessageD.decode buf with
  | .ok (d, rest) => .ok (⟨d.«from», d.«to», d.expire⟩, rest)
  | .error e =>
    if e.isListLengthMismatch then
      match PingMessageDEnr.decode buf with
      | .ok (d, rest) => .ok (⟨d.«from», d.«to», d.expire⟩, rest)
      | .error e2 => .error e2
    else .error e

/-- `pub struct PongMessage` (`echo` is an `H256`, modelled as its 32 raw
bytes). -/
structure PongMessage where
  «to» : Endpoint
  echo : Bytes
  expire : Nat
deriving DecidableEq, Repr

/-- The representable `PongMessage` values (`echo` a 32-byte hash). -/
def PongMessage.WF (m : PongMessage) : Prop :=
  m.«to».WF ∧ (m.echo.length = 32 ∧ ∀ b ∈ m.echo, b < 256) ∧ m.expire < 2 ^ 64

instance (m : PongMessage) : Decidable m.WF :=
  inferInstanceAs (Decidable (_ ∧ _ ∧ _))

/-- `#[derive(RlpEncodable)]` on `PongMessage` (an `H256` encodes as its 32
bytes as a string). -/
def PongMessage.encode (m : PongMessage) : Bytes :=
  let payload := Endpoint.encode m.«to» ++ encodeBytes m.echo ++ encodeNat m.expire
  headerEncode ⟨true, payload.length⟩ ++ payload

/-- `struct PongMessageD`: the 3-field decode shape. -/
structure PongMessageD where
  «to» : Endpoint
  echo : Bytes
  expire : Nat
deriving DecidableEq, Repr

/-- `#[derive(RlpDecodable)]` on `PongMessageD`. -/
def PongMessageD.decode (buf : Bytes) :
    Except DecodeError (PongMessageD × Bytes) :=
  match headerDecode buf with
  | .error e => .error e
  | .ok (h, b0) =>
    if h.isList = false then .error .unexpectedString
    else
      match Endpoint.decode b0 with
      | .error e => .error e
      | .ok (t, b1) =>
        match decodeByteArray 32 b1 with
        | .error e => .error e
        | .ok (echo, b2) =>
          match decodeU64 b2 with
          | .error e => .error e
          | .ok (expire, b3) =>
            if b0.length - b3.length ≠ h.payloadLength then
              .error (.listLengthMismatch h.payloadLength (b0.length - b3.length))
            else .ok (⟨t, echo, expire⟩, b3)

/-- `struct PongMessageDEnr`: the 4-field decode shape with the trailing
`enr_seq`. -/
structure PongMessageDEnr where
  «to» : Endpoint
  echo : Bytes
  expire : Nat
  enr_seq : Nat
deriving DecidableEq, Repr

/-- `#[derive(RlpDecodable)]` on `PongMessageDEnr`. -/
def PongMessageDEnr.decode (buf : Bytes) :
    Except DecodeError (PongMessageDEnr × Bytes) :=
  match headerDecode buf with
  | .error e => .error e
  | .ok (h, b0) =>
    if h.isList = false then .error .unexpectedString
    else
      match Endpoint.decode b0 with
      | .error e => .error e
      | .ok (t, b1) =>
        match decodeByteArray 32 b1 with
        | .error e => .error e
        | .ok (echo, b2) =>
          match decodeU64 b2 with
          | .error e => .error e
          | .ok (expire, b3) =>
            match decodeU64 b3 with
            | .error e => .error e
            | .ok (enr, b4) =>
              if b0.length - b4.length ≠ h.payloadLength then
                .error (.listLengthMismatch h.payloadLength (b0.length - b4.length))
              else .ok (⟨t, echo, expire, enr⟩, b4)

/-- `impl Decodable for PongMessage`: the same retry-on-`ListLengthMismatch`
policy as Ping, over the 3-field versus 4-field shapes. -/
def PongMessage.decode (buf : Bytes) :
    Except DecodeError (PongMessage × Bytes) :=
  match PongMessageD.decode buf with
  | .ok (d, rest) => .ok (⟨d.«to», d.echo, d.expire⟩, rest)
  | .error e =>
    if e.isListLengthMismatch then
      match PongMessageDEnr.decode buf with
      | .ok (d, rest) => .ok (⟨d.«to», d.echo, d.expire⟩, rest)
      | .error e2 => .error e2
    else .error e

/-- The wire bytes of a 4-field Ping record `[version, from, to, expire]`
with an arbitrary version value (the encoder itself always passes `4`). -/
def pingWire (version : Nat) (f t : Endpoint) (expire : Nat) : Bytes :=
  PingMessageE.encode ⟨version, f, t, expire⟩

/-- A hand-built extended (5-field) Ping record
`[version, from, to, expire, enr_seq]`. -/
def pingExtBytes (version : Nat) (f t : Endpoint) (expire enr : Nat) : Bytes :=
  let payload :=
    encodeNat version ++ Endpoint.encode f ++ Endpoint.encode t ++
      encodeNat expire ++ encodeNat enr
  headerEncode ⟨true, payload.length⟩ ++ payload

/-- A hand-built extended (4-field) Pong record `[to, echo, expire, enr_seq]`. -/
def pongExtBytes (t : Endpoint) (echo : Bytes) (expire enr : Nat) : Bytes :=
  let payload :=
    Endpoint.encode t ++ encodeBytes echo ++ encodeNat expire ++ encodeNat enr
  headerEncode ⟨true, payload.length⟩ ++ payload

/-- Count the fields of a structural record: the number of consecutive RLP
items that consume exactly `remaining` bytes of `buf` (the list payload);
`none` if the items do not tile the payload exactly or an item is unreadable. -/
def countFields : Nat → Nat → Bytes → Option Nat
  | _, 0, _ => some 0
  | 0, _ + 1, _ => none
  | fuel + 1, r + 1, buf =>
    match headerDecode buf with
    | .error _ => none
    | .ok (h, rest) =>
      let itemLen := (buf.length - rest.length) + h.payloadLength
      if itemLen ≤ r + 1 then
        match countFields fuel (r + 1 - itemLen) (rest.drop h.payloadLength) with
        | none => none
        | some k => some (k + 1)
      else none

/-- The field count of the outer record of `buf`: the number of RLP items
tiling the payload of its leading list header. -/
def outerFieldCount (buf : Bytes) : Option Nat :=
  match headerDecode buf with
  | .error _ => none
  | .ok (h, rest) =>
    if h.isList then countFields rest.length h.payloadLength rest else none

/-- Example endpoint (spec section 8's end-to-end example, `from` side). -/
def exFrom : Endpoint := ⟨.v4 [1, 2, 3, 4], 30303, 30303⟩

/-- Example endpoint (spec section 8's end-to-end example, `to` side). -/
def exTo : Endpoint := ⟨.v4 [5, 6, 7, 8], 30303, 30303⟩

/-- Example Ping message (spec section 8's end-to-end example). -/
def exPing : PingMessage := ⟨exFrom, exTo, 1700000000⟩

/-- Example 32-byte echo hash. -/
def exEcho : Bytes := List.replicate 32 0xAB

/-- Example Pong message. -/
def exPong : PongMessage := ⟨exTo, exEcho, 1700000000⟩

/-- Example 64-byte node id. -/
def exNodeId : NodeId := ⟨List.replicate 64 0xCD⟩

/-- Example node record. -/
def exRecord : NodeRecord := ⟨.v6 (List.replicate 16 9), 1, 2, exNodeId⟩

/-- Example FindNode message. -/
def exFind : FindNodeMessage := ⟨exNodeId, 77⟩

/-- Example Neighbours message (a duplicated node, exercising multiplicity). -/
def exNeigh : NeighboursMessage := ⟨[exRecord, exRecord], 99⟩

/-- A corrupted endpoint record whose address is a 7-byte string. -/
def badEndpointBytes : Bytes :=
  let payload := encodeBytes [1, 2, 3, 4, 5, 6, 7] ++ encodeNat 1 ++ encodeNat 2
  headerEncode ⟨true, payload.length⟩ ++ payload

/-- A Ping wire record with a structurally valid field count (4 fields) but a
malformed inner `from` endpoint (address of length 7). -/
def badPingBytes : Bytes :=
  let payload :=
    encodeNat 4 ++ badEndpointBytes ++ Endpoint.encode exTo ++ encodeNat 500
  headerEncode ⟨true, payload.length⟩ ++ payload

/-- A 4-field endpoint-like record (one well-formed field too many). -/
def fourFieldEndpointBytes : Bytes :=
  let payload :=
    encodeBytes [1, 2, 3, 4] ++ encodeNat 1 ++ encodeNat 2 ++ encodeNat 3
  headerEncode ⟨true, payload.length⟩ ++ payload

end Devp2p

namespace Devp2p

/-! ## Arithmetic facts about the big-endian byte representation -/

theorem beBytesAux_congr : ∀ f1 f2 n : Nat, n ≤ f1 → n ≤ f2 →
    beBytesAux f1 n = beBytesAux f2 n := by
  intro f1
  induction f1 with
  | zero =>
    intro f2 n h1 _
    have hn : n = 0 := Nat.le_zero.mp h1
    subst hn
    cases f2 <;> simp [beBytesAux]
  | succ f ih =>
    intro f2 n h1 h2
    by_cases hn : n = 0
    · subst hn; cases f2 <;> simp [beBytesAux]
    · obtain ⟨f2m, rfl⟩ : ∃ m, f2 = m + 1 := by
        cases f2 with
        | zero => omega
        | succ m => exact ⟨m, rfl⟩
      have hd : n / 256 < n := Nat.div_lt_self (by omega) (by omega)
      simp only [beBytesAux, if_neg hn]
      exact congrArg (· ++ [n % 256]) (ih f2m (n / 256) (by omega) (by omega))

theorem beBytes_zero : beBytes 0 = [] := rfl

theorem beBytes_pos (n : Nat) (hn : n ≠ 0) :
    beBytes n = beBytes (n / 256) ++ [n % 256] := by
  obtain ⟨m, rfl⟩ : ∃ m, n = m + 1 := ⟨n - 1, by omega⟩
  have hd : (m + 1) / 256 ≤ m := by
    have := Nat.div_lt_self (show 0 < m + 1 by omega) (show 1 < 256 by omega)
    omega
  show beBytesAux (m + 1) (m + 1) = _
  simp only [beBytesAux, if_neg hn]
  rw [beBytesAux_congr m ((m + 1) / 256) ((m + 1) / 256) hd (le_refl _)]
  rfl

theorem beBytes_small (n : Nat) (h1 : n ≠ 0) (h2 : n < 256) : beBytes n = [n] := by
  rw [beBytes_pos n h1, Nat.div_eq_of_lt h2, Nat.mod_eq_of_lt h2, beBytes_zero]
  rfl

theorem beVal_append_single (xs : Bytes) (b : Nat) :
    beVal (xs ++ [b]) = beVal xs * 256 + b := by
  simp [beVal, List.foldl_append]

theorem beVal_beBytes : ∀ n : Nat, beVal (beBytes n) = n := by
  intro n
  induction n using Nat.strong_induction_on with
  | _ n ih =>
    by_cases hn : n = 0
    · subst hn; simp [beBytes_zero, beVal]
    · rw [beBytes_pos n hn, beVal_append_single,
        ih (n / 256) (Nat.div_lt_self (by omega) (by omega))]
      omega

theorem beBytes_cons_of_ne_zero : ∀ n : Nat, n ≠ 0 →
    ∃ a l, beBytes n = a :: l ∧ a ≠ 0 := by
  intro n
  induction n using Nat.strong_induction_on with
  | _ n ih =>
    intro hn
    by_cases hsmall : n < 256
    · exact ⟨n, [], beBytes_small n hn hsmall, hn⟩
    · obtain ⟨a, l, hal, ha⟩ :=
        ih (n / 256) (Nat.div_lt_self (by omega) (by omega))
          (by
            intro h0
            have := Nat.div_eq_of_lt (show n < 256 by
              have := Nat.lt_of_div_lt_div (a := n) (b := 256) (c := 256) ?_
              · omega
              · omega)
            omega)
      exact ⟨a, l ++ [n % 256], by rw [beBytes_pos n hn, hal]; rfl, ha⟩

theorem beBytes_head?_ne_zero (n : Nat) : (beBytes n).head? ≠ some 0 := by
  by_cases hn : n = 0
  · subst hn; simp [beBytes_zero]
  · obtain ⟨a, l, hal, ha⟩ := beBytes_cons_of_ne_zero n hn
    rw [hal]
    simp [ha]

theorem beBytes_ne_nil (n : Nat) (hn : n ≠ 0) : beBytes n ≠ [] := by
  obtain ⟨a, l, hal, _⟩ := beBytes_cons_of_ne_zero n hn
  rw [hal]
  simp

theorem beBytes_length_le : ∀ k n : Nat, n < 256 ^ k → (beBytes n).length ≤ k := by
  intro k
  induction k with
  | zero =>
    intro n h
    have : n = 0 := by simpa using Nat.lt_one_iff.mp (by simpa using h)
    subst this
    simp [beBytes_zero]
  | succ k ih =>
    intro n h
    by_cases hn : n = 0
    · subst hn; simp [beBytes_zero]
    · rw [beBytes_pos n hn]
      have hdiv : n / 256 < 256 ^ k := by
        rw [Nat.div_lt_iff_lt_mul (by omega)]
        calc n < 256 ^ (k + 1) := h
          _ = 256 ^ k * 256 := by rw [Nat.pow_succ]
      have := ih (n / 256) hdiv
      simp only [List.length_append, List.length_cons, List.length_nil]
      omega

/-! ## Length facts about the encoders -/

theorem take_append_of_length {α : Type} (l1 l2 : List α) (n : Nat)
    (h : l1.length = n) : (l1 ++ l2).take n = l1 := by
  subst h
  simp [List.take_append]

theorem drop_append_of_length {α : Type} (l1 l2 : List α) (n : Nat)
    (h : l1.length = n) : (l1 ++ l2).drop n = l2 := by
  subst h
  simp [List.drop_append]

theorem headerEncode_length_le (l : Bool) (n k : Nat) (h : n < 256 ^ k) :
    (headerEncode ⟨l, n⟩).length ≤ 1 + k := by
  simp only [headerEncode]
  split
  · simp
  · have := beBytes_length_le k n h
    simp only [List.length_cons]
    omega

theorem headerEncode_length_pos (h : Header) : 1 ≤ (headerEncode h).length := by
  simp only [headerEncode]
  split <;> simp

theorem encodeBytes_length_pos (s : Bytes) : 1 ≤ (encodeBytes s).length := by
  match s with
  | [] => simp [encodeBytes, headerEncode]
  | [b] =>
    simp only [encodeBytes]
    split
    · simp
    · simp [headerEncode]
  | a :: b :: t =>
    simp only [encodeBytes, List.length_append]
    have := headerEncode_length_pos ⟨false, (a :: b :: t).length⟩
    omega

theorem encodeBytes_length_of (s : Bytes) (h2 : 2 ≤ s.length)
    (h56 : s.length < 56) : (encodeBytes s).length = s.length + 1 := by
  match s with
  | a :: b :: t =>
    show (headerEncode ⟨false, (a :: b :: t).length⟩ ++ (a :: b :: t)).length = _
    simp only [headerEncode, if_pos (show ¬((false : Bool) = true) by simp), List.length_append]
    rw [if_pos h56]
    simp only [List.length_cons, List.length_nil]
    omega

theorem encodeNat_length_le (k n : Nat) (h : n < 256 ^ k) (hk : k ≤ 54) :
    (encodeNat n).length ≤ k + 1 := by
  have hlen := beBytes_length_le k n h
  show (encodeBytes (beBytes n)).length ≤ k + 1
  match hbs : beBytes n with
  | [] => simp [encodeBytes, headerEncode]
  | [b] =>
    rw [hbs] at hlen
    simp only [List.length_cons, List.length_nil] at hlen
    simp only [encodeBytes]
    split
    · simp only [List.length_cons, List.length_nil]; omega
    · simp only [headerEncode, List.length_append, List.length_cons, List.length_nil]
      split <;> simp <;> omega
  | a :: b :: t =>
    rw [hbs] at hlen
    simp only [List.length_cons] at hlen
    rw [encodeBytes_length_of _ (by simp) (by simp only [List.length_cons]; omega)]
    simp only [List.length_cons]
    omega

theorem encodeNat_length_pos (n : Nat) : 1 ≤ (encodeNat n).length :=
  encodeBytes_length_pos (beBytes n)

end Devp2p

namespace Devp2p

/-! ## Decoding an encoded header -/

theorem headerDecode_encode_list (n : Nat) (tail : Bytes) (hn : n < 256 ^ 8)
    (ht : n ≤ tail.length) :
    headerDecode (headerEncode ⟨true, n⟩ ++ tail) = .ok (⟨true, n⟩, tail) := by
  by_cases h56 : n < 56
  · have henc : headerEncode ⟨true, n⟩ = [0xC0 + n] := by
      simp [headerEncode, if_pos h56]
    rw [henc]
    show headerDecode ((0xC0 + n) :: tail) = _
    simp only [headerDecode]
    rw [if_neg (show ¬(0xC0 + n < 0x80) by omega),
      if_neg (show ¬(0xC0 + n < 0xB8) by omega),
      if_neg (show ¬(0xC0 + n < 0xC0) by omega),
      if_pos (show 0xC0 + n < 0xF8 by omega)]
    rw [show 0xC0 + n - 0xC0 = n by omega, if_neg (show ¬(tail.length < n) by omega)]
  · have hne : n ≠ 0 := by omega
    have hk1 : 1 ≤ (beBytes n).length :=
      List.length_pos.mpr (beBytes_ne_nil n hne)
    have hk8 : (beBytes n).length ≤ 8 := beBytes_length_le 8 n hn
    have henc : headerEncode ⟨true, n⟩ =
        (0xC0 + 0x37 + (beBytes n).length) :: beBytes n := by
      simp [headerEncode, if_neg h56]
    rw [henc]
    show headerDecode ((0xC0 + 0x37 + (beBytes n).length) :: (beBytes n ++ tail)) = _
    simp only [headerDecode]
    rw [if_neg (show ¬(0xC0 + 0x37 + (beBytes n).length < 0x80) by omega),
      if_neg (show ¬(0xC0 + 0x37 + (beBytes n).length < 0xB8) by omega),
      if_neg (show ¬(0xC0 + 0x37 + (beBytes n).length < 0xC0) by omega),
      if_neg (show ¬(0xC0 + 0x37 + (beBytes n).length < 0xF8) by omega)]
    rw [show 0xC0 + 0x37 + (beBytes n).length - 0xF7 = (beBytes n).length by omega]
    rw [take_append_of_length (beBytes n) tail (beBytes n).length rfl,
      drop_append_of_length (beBytes n) tail (beBytes n).length rfl,
      beVal_beBytes]
    rw [if_neg (show ¬((beBytes n ++ tail).length < (beBytes n).length) by
        simp only [List.length_append]; omega),
      if_neg (beBytes_head?_ne_zero n),
      if_neg h56,
      if_neg (show ¬(tail.length < n) by omega)]

theorem headerDecode_encode_str (n : Nat) (tail : Bytes) (hn : n < 256 ^ 8)
    (ht : n ≤ tail.length)
    (h1 : n = 1 → ∃ c cs, tail = c :: cs ∧ 0x80 ≤ c) :
    headerDecode (headerEncode ⟨false, n⟩ ++ tail) = .ok (⟨false, n⟩, tail) := by
  by_cases h56 : n < 56
  · have henc : headerEncode ⟨false, n⟩ = [0x80 + n] := by
      simp [headerEncode, if_pos h56]
    rw [henc]
    show headerDecode ((0x80 + n) :: tail) = _
    simp only [headerDecode]
    rw [if_neg (show ¬(0x80 + n < 0x80) by omega),
      if_pos (show 0x80 + n < 0xB8 by omega)]
    by_cases hone : n = 1
    · subst hone
      obtain ⟨c, cs, rfl, hc⟩ := h1 rfl
      rw [if_pos (show 0x80 + 1 - 0x80 = 1 by omega)]
      dsimp only
      rw [if_neg (show ¬(c < 0x80) by omega),
        if_neg (show ¬((c :: cs).length < 1) by simp)]
    · rw [if_neg (show ¬(0x80 + n - 0x80 = 1) by omega)]
      rw [show 0x80 + n - 0x80 = n by omega,
        if_neg (show ¬(tail.length < n) by omega)]
  · have hne : n ≠ 0 := by omega
    have hk1 : 1 ≤ (beBytes n).length :=
      List.length_pos.mpr (beBytes_ne_nil n hne)
    have hk8 : (beBytes n).length ≤ 8 := beBytes_length_le 8 n hn
    have henc : headerEncode ⟨false, n⟩ =
        (0x80 + 0x37 + (beBytes n).length) :: beBytes n := by
      simp [headerEncode, if_neg h56]
    rw [henc]
    show headerDecode ((0x80 + 0x37 + (beBytes n).length) :: (beBytes n ++ tail)) = _
    simp only [headerDecode]
    rw [if_neg (show ¬(0x80 + 0x37 + (beBytes n).length < 0x80) by omega),
      if_neg (show ¬(0x80 + 0x37 + (beBytes n).length < 0xB8) by omega),
      if_pos (show 0x80 + 0x37 + (beBytes n).length < 0xC0 by omega)]
    rw [show 0x80 + 0x37 + (beBytes n).length - 0xB7 = (beBytes n).length by omega]
    rw [take_append_of_length (beBytes n) tail (beBytes n).length rfl,
      drop_append_of_length (beBytes n) tail (beBytes n).length rfl,
      beVal_beBytes]
    rw [if_neg (show ¬((beBytes n ++ tail).length < (beBytes n).length) by
        simp only [List.length_append]; omega),
      if_neg (beBytes_head?_ne_zero n),
      if_neg h56,
      if_neg (show ¬(tail.length < n) by omega)]

end Devp2p

namespace Devp2p

/-! ## Decoding encoded fields -/

theorem headerEncode_length_short (l : Bool) (n : Nat) (h : n < 56) :
    (headerEncode ⟨l, n⟩).length = 1 := by
  simp [headerEncode, if_pos h]

theorem encodeBytes_eq_header (s : Bytes) (h2 : 2 ≤ s.length) :
    encodeBytes s = headerEncode ⟨false, s.length⟩ ++ s := by
  match s with
  | a :: b :: t => rfl

theorem beBytes_length_ge2 (n : Nat) (h : 256 ≤ n) : 2 ≤ (beBytes n).length := by
  rw [beBytes_pos n (by omega)]
  have h1 : 1 ≤ (beBytes (n / 256)).length :=
    List.length_pos.mpr (beBytes_ne_nil (n / 256) (by
      intro h0
      have hlt : n < 256 := (Nat.div_eq_zero_iff (by omega)).mp h0
      omega))
  simp only [List.length_append, List.length_cons, List.length_nil]
  omega

theorem headerDecode_encodeNat (n : Nat) (tail : Bytes) (h : n < 256 ^ 8) :
    headerDecode (encodeNat n ++ tail) =
      .ok (⟨false, (beBytes n).length⟩, beBytes n ++ tail) := by
  by_cases h0 : n = 0
  · subst h0
    have he : encodeNat 0 ++ tail = headerEncode ⟨false, 0⟩ ++ tail := rfl
    rw [he, headerDecode_encode_str 0 tail (by norm_num) (by omega) (by omega)]
    rfl
  · by_cases hsmall : n < 0x80
    · have hb : beBytes n = [n] := beBytes_small n h0 (by omega)
      have he : encodeNat n = [n] := by
        show encodeBytes (beBytes n) = [n]
        rw [hb]
        simp [encodeBytes, if_pos hsmall]
      rw [he, hb]
      show headerDecode (n :: tail) = _
      simp only [headerDecode]
      rw [if_pos hsmall, if_neg (show ¬((n :: tail).length < 1) by simp)]
      rfl
    · by_cases hbyte : n < 256
      · have hb : beBytes n = [n] := beBytes_small n h0 hbyte
        have he : encodeNat n = headerEncode ⟨false, 1⟩ ++ [n] := by
          show encodeBytes (beBytes n) = _
          rw [hb]
          simp [encodeBytes, if_neg (show ¬(n < 0x80) by omega)]
        rw [he, hb, List.append_assoc]
        rw [headerDecode_encode_str 1 ([n] ++ tail) (by norm_num) (by simp)
          (fun _ => ⟨n, tail, rfl, by omega⟩)]
        rfl
      · have hk2 : 2 ≤ (beBytes n).length := beBytes_length_ge2 n (by omega)
        have he : encodeNat n = headerEncode ⟨false, (beBytes n).length⟩ ++ beBytes n :=
          encodeBytes_eq_header (beBytes n) hk2
        rw [he, List.append_assoc]
        rw [headerDecode_encode_str (beBytes n).length (beBytes n ++ tail)
          (by have := beBytes_length_le 8 n h; omega)
          (by simp only [List.length_append]; omega)
          (by omega)]

theorem decodeUintSized_encodeNat (m n : Nat) (tail : Bytes)
    (h : n < 256 ^ m) (hm : m ≤ 8) :
    decodeUintSized m (encodeNat n ++ tail) = .ok (n, tail) := by
  have h8 : n < 256 ^ 8 := lt_of_lt_of_le h (Nat.pow_le_pow_right (by omega) hm)
  have hlen : (beBytes n).length ≤ m := beBytes_length_le m n h
  simp only [decodeUintSized]
  rw [headerDecode_encodeNat n tail h8]
  dsimp only
  rw [if_neg (show ¬((false : Bool) = true) by simp),
    if_neg (show ¬(m < (beBytes n).length) by omega),
    take_append_of_length (beBytes n) tail (beBytes n).length rfl,
    drop_append_of_length (beBytes n) tail (beBytes n).length rfl,
    if_neg (beBytes_head?_ne_zero n), beVal_beBytes]

theorem decodeU64_encodeNat (n : Nat) (tail : Bytes) (h : n < 2 ^ 64) :
    decodeU64 (encodeNat n ++ tail) = .ok (n, tail) :=
  decodeUintSized_encodeNat 8 n tail (by norm_num at h ⊢; omega) (by omega)

theorem decodeU16_encodeNat (n : Nat) (tail : Bytes) (h : n < 2 ^ 16) :
    decodeU16 (encodeNat n ++ tail) = .ok (n, tail) :=
  decodeUintSized_encodeNat 2 n tail (by norm_num at h ⊢; omega) (by omega)

theorem headerDecode_encodeBytes (s : Bytes) (tail : Bytes) (h2 : 2 ≤ s.length)
    (h8 : s.length < 256 ^ 8) :
    headerDecode (encodeBytes s ++ tail) = .ok (⟨false, s.length⟩, s ++ tail) := by
  rw [encodeBytes_eq_header s h2, List.append_assoc]
  exact headerDecode_encode_str s.length (s ++ tail) h8
    (by simp only [List.length_append]; omega) (by omega)

theorem decodeByteArray_encodeBytes (s : Bytes) (tail : Bytes) (h2 : 2 ≤ s.length)
    (h8 : s.length < 256 ^ 8) :
    decodeByteArray s.length (encodeBytes s ++ tail) = .ok (s, tail) := by
  simp only [decodeByteArray]
  rw [headerDecode_encodeBytes s tail h2 h8]
  dsimp only
  rw [if_neg (show ¬((false : Bool) = true) by simp),
    if_neg (show ¬(s.length ≠ s.length) by simp),
    take_append_of_length s tail s.length rfl,
    drop_append_of_length s tail s.length rfl]

end Devp2p

namespace Devp2p

/-! ## Round-trips of the leaf codecs -/

theorem ip_decode_encode (a : Ip) (ha : a.WF) (tail : Bytes) :
    Ip.decode (Ip.encode a ++ tail) = .ok (a, tail) := by
  cases a with
  | v4 o =>
    obtain ⟨hlen, -⟩ := ha
    have h2 : 2 ≤ o.length := by omega
    have h8 : o.length < 256 ^ 8 := by rw [hlen]; norm_num
    have hba := decodeByteArray_encodeBytes o tail h2 h8
    rw [hlen] at hba
    show Ip.decode (encodeBytes o ++ tail) = _
    simp only [Ip.decode]
    rw [headerDecode_encodeBytes o tail h2 h8]
    dsimp only
    rw [hlen, if_neg (show ¬(4 = 0) by omega), if_pos (show (4 : Nat) = 4 from rfl),
      hba]
  | v6 o =>
    obtain ⟨hlen, -⟩ := ha
    have h2 : 2 ≤ o.length := by omega
    have h8 : o.length < 256 ^ 8 := by rw [hlen]; norm_num
    have hba := decodeByteArray_encodeBytes o tail h2 h8
    rw [hlen] at hba
    show Ip.decode (encodeBytes o ++ tail) = _
    simp only [Ip.decode]
    rw [headerDecode_encodeBytes o tail h2 h8]
    dsimp only
    rw [hlen, if_neg (show ¬(16 = 0) by omega), if_neg (show ¬(16 = 4) by omega),
      if_pos (show (16 : Nat) = 16 from rfl), hba]

theorem ip_encode_length_le (a : Ip) (ha : a.WF) : (Ip.encode a).length ≤ 17 := by
  cases a with
  | v4 o =>
    obtain ⟨hlen, -⟩ := ha
    show (encodeBytes o).length ≤ 17
    rw [encodeBytes_length_of o (by omega) (by omega)]
    omega
  | v6 o =>
    obtain ⟨hlen, -⟩ := ha
    show (encodeBytes o).length ≤ 17
    rw [encodeBytes_length_of o (by omega) (by omega)]
    omega

theorem encodeNat_u16_length (n : Nat) (h : n < 2 ^ 16) :
    (encodeNat n).length ≤ 3 := by
  have := encodeNat_length_le 2 n (by norm_num at h ⊢; omega) (by omega)
  omega

theorem encodeNat_u64_length (n : Nat) (h : n < 2 ^ 64) :
    (encodeNat n).length ≤ 9 := by
  have := encodeNat_length_le 8 n (by norm_num at h ⊢; omega) (by omega)
  omega

theorem endpoint_encode_length_le (e : Endpoint) (he : e.WF) :
    (Endpoint.encode e).length ≤ 24 := by
  obtain ⟨ha, hu, ht⟩ := he
  have h1 := ip_encode_length_le e.address ha
  have h2 := encodeNat_u16_length e.udp_port hu
  have h3 := encodeNat_u16_length e.tcp_port ht
  simp only [Endpoint.encode]
  rw [List.length_append,
    headerEncode_length_short true _ (by simp only [List.length_append]; omega)]
  simp only [List.length_append]
  omega

theorem endpoint_decode_encode (e : Endpoint) (he : e.WF) (tail : Bytes) :
    Endpoint.decode (Endpoint.encode e ++ tail) = .ok (e, tail) := by
  obtain ⟨address, udp, tcp⟩ := e
  obtain ⟨ha, hu, ht2⟩ := he
  have hlip := ip_encode_length_le address ha
  have hlu := encodeNat_u16_length udp hu
  have hlt := encodeNat_u16_length tcp ht2
  simp only [Endpoint.encode, Endpoint.decode, List.append_assoc]
  rw [headerDecode_encode_list
    (Ip.encode address ++ (encodeNat udp ++ encodeNat tcp)).length
    (Ip.encode address ++ (encodeNat udp ++ (encodeNat tcp ++ tail)))
    (lt_of_le_of_lt (show _ ≤ 23 by simp only [List.length_append]; omega)
      (by norm_num))
    (by simp only [List.length_append]; omega)]
  dsimp only
  rw [if_neg (show ¬((true : Bool) = false) by simp)]
  rw [ip_decode_encode address ha (encodeNat udp ++ (encodeNat tcp ++ tail))]
  dsimp only
  rw [decodeU16_encodeNat udp (encodeNat tcp ++ tail) hu]
  dsimp only
  rw [decodeU16_encodeNat tcp tail ht2]
  dsimp only
  rw [if_neg (show
    ¬((Ip.encode address ++ (encodeNat udp ++ (encodeNat tcp ++ tail))).length -
        tail.length ≠
      (Ip.encode address ++ (encodeNat udp ++ encodeNat tcp)).length) by
    simp only [List.length_append]; omega)]

theorem nodeId_decode_encode (n : NodeId) (hn : n.WF) (tail : Bytes) :
    NodeId.decode (NodeId.encode n ++ tail) = .ok (n, tail) := by
  obtain ⟨bytes⟩ := n
  obtain ⟨hl, -⟩ := hn
  simp only [NodeId.encode, NodeId.decode]
  have hba := decodeByteArray_encodeBytes bytes tail (by
      simp only at hl
      omega)
    (by simp only at hl; rw [hl]; norm_num)
  simp only at hl
  rw [hl] at hba
  rw [hba]

theorem NodeId.encode_length (n : NodeId) (hn : n.WF) :
    (NodeId.encode n).length = 66 := by
  obtain ⟨hl, -⟩ := hn
  show (encodeBytes n.bytes).length = 66
  rw [encodeBytes_eq_header _ (by omega), List.length_append, hl]
  have h2 : (headerEncode ⟨false, 64⟩).length = 2 := by decide
  omega

end Devp2p

namespace Devp2p

/-! ## Round-trips of the record codecs -/

theorem nodeRecord_encode_length_le (r : NodeRecord) (hr : r.WF) :
    (NodeRecord.encode r).length ≤ 91 := by
  obtain ⟨ha, hu, ht, hid⟩ := hr
  have h1 := ip_encode_length_le r.address ha
  have h2 := encodeNat_u16_length r.udp_port hu
  have h3 := encodeNat_u16_length r.tcp_port ht
  have h4 := NodeId.encode_length r.id hid
  have hP : (Ip.encode r.address ++ encodeNat r.udp_port ++ encodeNat r.tcp_port ++
      NodeId.encode r.id).length ≤ 89 := by
    simp only [List.length_append]; omega
  simp only [NodeRecord.encode]
  rw [List.length_append]
  have := headerEncode_length_le true
    (Ip.encode r.address ++ encodeNat r.udp_port ++ encodeNat r.tcp_port ++
      NodeId.encode r.id).length 1 (lt_of_le_of_lt hP (by norm_num))
  omega

theorem NodeRecord.encode_length_pos (r : NodeRecord) :
    1 ≤ (NodeRecord.encode r).length := by
  simp only [NodeRecord.encode]
  rw [List.length_append]
  have := headerEncode_length_pos ⟨true,
    (Ip.encode r.address ++ encodeNat r.udp_port ++ encodeNat r.tcp_port ++
      NodeId.encode r.id).length⟩
  omega

theorem nodeRecord_decode_encode (r : NodeRecord) (hr : r.WF) (tail : Bytes) :
    NodeRecord.decode (NodeRecord.encode r ++ tail) = .ok (r, tail) := by
  obtain ⟨address, udp, tcp, nid⟩ := r
  obtain ⟨ha, hu, ht2, hid⟩ := hr
  have hlip := ip_encode_length_le address ha
  have hlu := encodeNat_u16_length udp hu
  have hlt := encodeNat_u16_length tcp ht2
  have hlid := NodeId.encode_length nid hid
  simp only [NodeRecord.encode, NodeRecord.decode, List.append_assoc]
  rw [headerDecode_encode_list
    (Ip.encode address ++ (encodeNat udp ++ (encodeNat tcp ++ NodeId.encode nid))).length
    (Ip.encode address ++ (encodeNat udp ++ (encodeNat tcp ++ (NodeId.encode nid ++ tail))))
    (lt_of_le_of_lt (show _ ≤ 89 by simp only [List.length_append]; omega)
      (by norm_num))
    (by simp only [List.length_append]; omega)]
  dsimp only
  rw [if_neg (show ¬((true : Bool) = false) by simp)]
  rw [ip_decode_encode address ha
    (encodeNat udp ++ (encodeNat tcp ++ (NodeId.encode nid ++ tail)))]
  dsimp only
  rw [decodeU16_encodeNat udp (encodeNat tcp ++ (NodeId.encode nid ++ tail)) hu]
  dsimp only
  rw [decodeU16_encodeNat tcp (NodeId.encode nid ++ tail) ht2]
  dsimp only
  rw [nodeId_decode_encode nid hid tail]
  dsimp only
  rw [if_neg (show
    ¬((Ip.encode address ++
          (encodeNat udp ++ (encodeNat tcp ++ (NodeId.encode nid ++ tail)))).length -
        tail.length ≠
      (Ip.encode address ++
        (encodeNat udp ++ (encodeNat tcp ++ NodeId.encode nid))).length) by
    simp only [List.length_append]; omega)]

theorem findNode_decode_encode (m : FindNodeMessage) (hm : m.WF)
    (tail : Bytes) :
    FindNodeMessage.decode (FindNodeMessage.encode m ++ tail) = .ok (m, tail) := by
  obtain ⟨nid, expire⟩ := m
  obtain ⟨hid, hexp⟩ := hm
  have hlid := NodeId.encode_length nid hid
  have hle := encodeNat_u64_length expire hexp
  simp only [FindNodeMessage.encode, FindNodeMessage.decode, List.append_assoc]
  rw [headerDecode_encode_list (NodeId.encode nid ++ encodeNat expire).length
    (NodeId.encode nid ++ (encodeNat expire ++ tail))
    (lt_of_le_of_lt (show _ ≤ 75 by simp only [List.length_append]; omega)
      (by norm_num))
    (by simp only [List.length_append]; omega)]
  dsimp only
  rw [if_neg (show ¬((true : Bool) = false) by simp)]
  rw [nodeId_decode_encode nid hid (encodeNat expire ++ tail)]
  dsimp only
  rw [decodeU64_encodeNat expire tail hexp]
  dsimp only
  rw [if_neg (show
    ¬((NodeId.encode nid ++ (encodeNat expire ++ tail)).length - tail.length ≠
      (NodeId.encode nid ++ encodeNat expire).length) by
    simp only [List.length_append]; omega)]

theorem flatten_encode_length_le (rs : List NodeRecord)
    (hwf : ∀ r ∈ rs, r.WF) :
    ((rs.map NodeRecord.encode).flatten).length ≤ 91 * rs.length := by
  induction rs with
  | nil => simp
  | cons r rs ih =>
    simp only [List.map_cons, List.flatten_cons, List.length_append,
      List.length_cons]
    have h1 := nodeRecord_encode_length_le r (hwf r (by simp))
    have h2 := ih (fun x hx => hwf x (by simp [hx]))
    omega

theorem decodeListAux_encode (rs : List NodeRecord) :
    ∀ fuel : Nat, (∀ r ∈ rs, r.WF) →
      ((rs.map NodeRecord.encode).flatten).length ≤ fuel →
      decodeListAux NodeRecord.decode fuel ((rs.map NodeRecord.encode).flatten) =
        .ok rs := by
  induction rs with
  | nil => intro fuel _ _; simp [decodeListAux]
  | cons r rs ih =>
    intro fuel hwf hfuel
    have hrwf : r.WF := hwf r (by simp)
    have hmin := NodeRecord.encode_length_pos r
    rw [List.map_cons, List.flatten_cons] at hfuel ⊢
    simp only [List.length_append] at hfuel
    obtain ⟨f, rfl⟩ : ∃ f, fuel = f + 1 := ⟨fuel - 1, by omega⟩
    obtain ⟨b, bs, hb⟩ : ∃ b bs,
        NodeRecord.encode r ++ (rs.map NodeRecord.encode).flatten = b :: bs := by
      cases hcons : NodeRecord.encode r ++ (rs.map NodeRecord.encode).flatten with
      | nil =>
        exfalso
        have := congrArg List.length hcons
        simp only [List.length_append, List.length_nil] at this
        omega
      | cons b bs => exact ⟨b, bs, rfl⟩
    rw [hb]
    simp only [decodeListAux]
    rw [← hb, nodeRecord_decode_encode r hrwf ((rs.map NodeRecord.encode).flatten)]
    dsimp only
    rw [ih f (fun x hx => hwf x (by simp [hx])) (by omega)]

theorem decodeVec_encodeNodeList (rs : List NodeRecord) (tail : Bytes)
    (hwf : ∀ r ∈ rs, r.WF) (hn : rs.length < 2 ^ 56) :
    decodeVec NodeRecord.decode (encodeNodeList rs ++ tail) = .ok (rs, tail) := by
  have hflat := flatten_encode_length_le rs hwf
  have hlt : ((rs.map NodeRecord.encode).flatten).length < 256 ^ 8 := by
    have e1 : (2 : Nat) ^ 56 = 72057594037927936 := by norm_num
    have e2 : (256 : Nat) ^ 8 = 18446744073709551616 := by norm_num
    omega
  simp only [encodeNodeList, decodeVec, List.append_assoc]
  rw [headerDecode_encode_list ((rs.map NodeRecord.encode).flatten).length
    ((rs.map NodeRecord.encode).flatten ++ tail) hlt
    (by simp only [List.length_append]; omega)]
  dsimp only
  rw [if_neg (show ¬((true : Bool) = false) by simp)]
  rw [take_append_of_length ((rs.map NodeRecord.encode).flatten) tail _ rfl,
    drop_append_of_length ((rs.map NodeRecord.encode).flatten) tail _ rfl]
  rw [decodeListAux_encode rs ((rs.map NodeRecord.encode).flatten).length hwf
    (le_refl _)]

theorem encodeNodeList_length_le (rs : List NodeRecord)
    (hwf : ∀ r ∈ rs, r.WF) (hn : rs.length < 2 ^ 56) :
    (encodeNodeList rs).length ≤ 91 * rs.length + 9 := by
  have hflat := flatten_encode_length_le rs hwf
  have e1 : (2 : Nat) ^ 56 = 72057594037927936 := by norm_num
  have e2 : (256 : Nat) ^ 8 = 18446744073709551616 := by norm_num
  simp only [encodeNodeList, List.length_append]
  have := headerEncode_length_le true ((rs.map NodeRecord.encode).flatten).length 8
    (by omega)
  omega

theorem neighbours_decode_encode (m : NeighboursMessage) (hm : m.WF)
    (tail : Bytes) :
    NeighboursMessage.decode (NeighboursMessage.encode m ++ tail) =
      .ok (m, tail) := by
  obtain ⟨nodes, expire⟩ := m
  obtain ⟨hwf, hexp, hcount⟩ := hm
  dsimp only at hwf hexp hcount
  have hnl := encodeNodeList_length_le nodes hwf hcount
  have hle := encodeNat_u64_length expire hexp
  simp only [NeighboursMessage.encode, NeighboursMessage.decode, List.append_assoc]
  rw [headerDecode_encode_list (encodeNodeList nodes ++ encodeNat expire).length
    (encodeNodeList nodes ++ (encodeNat expire ++ tail))
    (by
      have e1 : (2 : Nat) ^ 56 = 72057594037927936 := by norm_num
      have e2 : (256 : Nat) ^ 8 = 18446744073709551616 := by norm_num
      simp only [List.length_append]
      omega)
    (by simp only [List.length_append]; omega)]
  dsimp only
  rw [if_neg (show ¬((true : Bool) = false) by simp)]
  rw [decodeVec_encodeNodeList nodes (encodeNat expire ++ tail) hwf hcount]
  dsimp only
  rw [decodeU64_encodeNat expire tail hexp]
  dsimp only
  rw [if_neg (show
    ¬((encodeNodeList nodes ++ (encodeNat expire ++ tail)).length - tail.length ≠
      (encodeNodeList nodes ++ encodeNat expire).length) by
    simp only [List.length_append]; omega)]

end Devp2p

namespace Devp2p

/-! ## Ping wire shapes -/

theorem pingD_decode_wire (v : Nat) (f t : Endpoint) (e : Nat)
    (hv : v < 2 ^ 64) (hf : f.WF) (ht : t.WF) (he : e < 2 ^ 64) :
    PingMessageD.decode (pingWire v f t e) = .ok (⟨v, f, t, e⟩, []) := by
  have hlv := encodeNat_u64_length v hv
  have hlf := endpoint_encode_length_le f hf
  have hlt := endpoint_encode_length_le t ht
  have hle := encodeNat_u64_length e he
  have hdU : decodeU64 (encodeNat e) = .ok (e, []) := by
    have h := decodeU64_encodeNat e [] he
    rwa [List.append_nil] at h
  simp only [pingWire, PingMessageE.encode, PingMessageD.decode, List.append_assoc]
  rw [headerDecode_encode_list
    (encodeNat v ++ (Endpoint.encode f ++ (Endpoint.encode t ++ encodeNat e))).length
    (encodeNat v ++ (Endpoint.encode f ++ (Endpoint.encode t ++ encodeNat e)))
    (lt_of_le_of_lt (show _ ≤ 66 by simp only [List.length_append]; omega)
      (by norm_num))
    (le_refl _)]
  dsimp only
  rw [if_neg (show ¬((true : Bool) = false) by simp)]
  rw [decodeU64_encodeNat v (Endpoint.encode f ++ (Endpoint.encode t ++ encodeNat e)) hv]
  dsimp only
  rw [endpoint_decode_encode f hf (Endpoint.encode t ++ encodeNat e)]
  dsimp only
  rw [endpoint_decode_encode t ht (encodeNat e)]
  dsimp only
  rw [hdU]
  dsimp only
  rw [if_neg (show
    ¬((encodeNat v ++ (Endpoint.encode f ++ (Endpoint.encode t ++ encodeNat e))).length -
        ([] : Bytes).length ≠
      (encodeNat v ++ (Endpoint.encode f ++ (Endpoint.encode t ++ encodeNat e))).length) by
    simp only [List.length_append, List.length_nil]; omega)]

theorem pingD_decode_ext (v : Nat) (f t : Endpoint) (e enr : Nat)
    (hv : v < 2 ^ 64) (hf : f.WF) (ht : t.WF) (he : e < 2 ^ 64)
    (henr : enr < 2 ^ 64) :
    PingMessageD.decode (pingExtBytes v f t e enr) =
      .error (.listLengthMismatch
        (encodeNat v ++ (Endpoint.encode f ++ (Endpoint.encode t ++
          (encodeNat e ++ encodeNat enr)))).length
        ((encodeNat v ++ (Endpoint.encode f ++ (Endpoint.encode t ++
          (encodeNat e ++ encodeNat enr)))).length - (encodeNat enr).length)) := by
  have hlv := encodeNat_u64_length v hv
  have hlf := endpoint_encode_length_le f hf
  have hlt := endpoint_encode_length_le t ht
  have hle := encodeNat_u64_length e he
  have hlenr := encodeNat_u64_length enr henr
  have hp := encodeNat_length_pos enr
  simp only [pingExtBytes, PingMessageD.decode, List.append_assoc]
  rw [headerDecode_encode_list
    (encodeNat v ++ (Endpoint.encode f ++ (Endpoint.encode t ++
      (encodeNat e ++ encodeNat enr)))).length
    (encodeNat v ++ (Endpoint.encode f ++ (Endpoint.encode t ++
      (encodeNat e ++ encodeNat enr))))
    (lt_of_le_of_lt (show _ ≤ 75 by simp only [List.length_append]; omega)
      (by norm_num))
    (le_refl _)]
  dsimp only
  rw [if_neg (show ¬((true : Bool) = false) by simp)]
  rw [decodeU64_encodeNat v
    (Endpoint.encode f ++ (Endpoint.encode t ++ (encodeNat e ++ encodeNat enr))) hv]
  dsimp only
  rw [endpoint_decode_encode f hf
    (Endpoint.encode t ++ (encodeNat e ++ encodeNat enr))]
  dsimp only
  rw [endpoint_decode_encode t ht (encodeNat e ++ encodeNat enr)]
  dsimp only
  rw [decodeU64_encodeNat e (encodeNat enr) he]
  dsimp only
  rw [if_pos (show
    (encodeNat v ++ (Endpoint.encode f ++ (Endpoint.encode t ++
        (encodeNat e ++ encodeNat enr)))).length - (encodeNat enr).length ≠
      (encodeNat v ++ (Endpoint.encode f ++ (Endpoint.encode t ++
        (encodeNat e ++ encodeNat enr)))).length by
    simp only [List.length_append]; omega)]

theorem pingDEnr_decode_ext (v : Nat) (f t : Endpoint) (e enr : Nat)
    (hv : v < 2 ^ 64) (hf : f.WF) (ht : t.WF) (he : e < 2 ^ 64)
    (henr : enr < 2 ^ 64) :
    PingMessageDEnr.decode (pingExtBytes v f t e enr) =
      .ok (⟨v, f, t, e, enr⟩, []) := by
  have hlv := encodeNat_u64_length v hv
  have hlf := endpoint_encode_length_le f hf
  have hlt := endpoint_encode_length_le t ht
  have hle := encodeNat_u64_length e he
  have hlenr := encodeNat_u64_length enr henr
  have hdU : decodeU64 (encodeNat enr) = .ok (enr, []) := by
    have h := decodeU64_encodeNat enr [] henr
    rwa [List.append_nil] at h
  simp only [pingExtBytes, PingMessageDEnr.decode, List.append_assoc]
  rw [headerDecode_encode_list
    (encodeNat v ++ (Endpoint.encode f ++ (Endpoint.encode t ++
      (encodeNat e ++ encodeNat enr)))).length
    (encodeNat v ++ (Endpoint.encode f ++ (Endpoint.encode t ++
      (encodeNat e ++ encodeNat enr))))
    (lt_of_le_of_lt (show _ ≤ 75 by simp only [List.length_append]; omega)
      (by norm_num))
    (le_refl _)]
  dsimp only
  rw [if_neg (show ¬((true : Bool) = false) by simp)]
  rw [decodeU64_encodeNat v
    (Endpoint.encode f ++ (Endpoint.encode t ++ (encodeNat e ++ encodeNat enr))) hv]
  dsimp only
  rw [endpoint_decode_encode f hf
    (Endpoint.encode t ++ (encodeNat e ++ encodeNat enr))]
  dsimp only
  rw [endpoint_decode_encode t ht (encodeNat e ++ encodeNat enr)]
  dsimp only
  rw [decodeU64_encodeNat e (encodeNat enr) he]
  dsimp only
  rw [hdU]
  dsimp only
  rw [if_neg (show
    ¬((encodeNat v ++ (Endpoint.encode f ++ (Endpoint.encode t ++
          (encodeNat e ++ encodeNat enr)))).length - ([] : Bytes).length ≠
      (encodeNat v ++ (Endpoint.encode f ++ (Endpoint.encode t ++
        (encodeNat e ++ encodeNat enr)))).length) by
    simp only [List.length_append, List.length_nil]; omega)]

theorem ping_decode_wire (v : Nat) (f t : Endpoint) (e : Nat)
    (hv : v < 2 ^ 64) (hf : f.WF) (ht : t.WF) (he : e < 2 ^ 64) :
    PingMessage.decode (pingWire v f t e) = .ok (⟨f, t, e⟩, []) := by
  simp only [PingMessage.decode]
  rw [pingD_decode_wire v f t e hv hf ht he]

theorem ping_decode_ext (v : Nat) (f t : Endpoint) (e enr : Nat)
    (hv : v < 2 ^ 64) (hf : f.WF) (ht : t.WF) (he : e < 2 ^ 64)
    (henr : enr < 2 ^ 64) :
    PingMessage.decode (pingExtBytes v f t e enr) = .ok (⟨f, t, e⟩, []) := by
  simp only [PingMessage.decode]
  rw [pingD_decode_ext v f t e enr hv hf ht he henr]
  dsimp only [DecodeError.isListLengthMismatch]
  rw [if_pos rfl]
  rw [pingDEnr_decode_ext v f t e enr hv hf ht he henr]

end Devp2p

namespace Devp2p

/-! ## Pong wire shapes -/

theorem encodeBytes_echo_length (echo : Bytes) (h : echo.length = 32) :
    (encodeBytes echo).length = 33 := by
  rw [encodeBytes_length_of echo (by omega) (by omega), h]

theorem decodeByteArray_echo (echo : Bytes) (tail : Bytes)
    (h : echo.length = 32) :
    decodeByteArray 32 (encodeBytes echo ++ tail) = .ok (echo, tail) := by
  have := decodeByteArray_encodeBytes echo tail (by omega) (by rw [h]; norm_num)
  rwa [h] at this

theorem pongD_decode_encode (t : Endpoint) (echo : Bytes) (e : Nat)
    (ht : t.WF) (hecho : echo.length = 32) (he : e < 2 ^ 64) :
    PongMessageD.decode (PongMessage.encode ⟨t, echo, e⟩) =
      .ok (⟨t, echo, e⟩, []) := by
  have hlt := endpoint_encode_length_le t ht
  have hlecho := encodeBytes_echo_length echo hecho
  have hle := encodeNat_u64_length e he
  have hdU : decodeU64 (encodeNat e) = .ok (e, []) := by
    have h := decodeU64_encodeNat e [] he
    rwa [List.append_nil] at h
  simp only [PongMessage.encode, PongMessageD.decode, List.append_assoc]
  rw [headerDecode_encode_list
    (Endpoint.encode t ++ (encodeBytes echo ++ encodeNat e)).length
    (Endpoint.encode t ++ (encodeBytes echo ++ encodeNat e))
    (lt_of_le_of_lt (show _ ≤ 66 by simp only [List.length_append]; omega)
      (by norm_num))
    (le_refl _)]
  dsimp only
  rw [if_neg (show ¬((true : Bool) = false) by simp)]
  rw [endpoint_decode_encode t ht (encodeBytes echo ++ encodeNat e)]
  dsimp only
  rw [decodeByteArray_echo echo (encodeNat e) hecho]
  dsimp only
  rw [hdU]
  dsimp only
  rw [if_neg (show
    ¬((Endpoint.encode t ++ (encodeBytes echo ++ encodeNat e)).length -
        ([] : Bytes).length ≠
      (Endpoint.encode t ++ (encodeBytes echo ++ encodeNat e)).length) by
    simp only [List.length_append, List.length_nil]; omega)]

theorem pongD_decode_ext (t : Endpoint) (echo : Bytes) (e enr : Nat)
    (ht : t.WF) (hecho : echo.length = 32) (he : e < 2 ^ 64)
    (henr : enr < 2 ^ 64) :
    PongMessageD.decode (pongExtBytes t echo e enr) =
      .error (.listLengthMismatch
        (Endpoint.encode t ++ (encodeBytes echo ++
          (encodeNat e ++ encodeNat enr))).length
        ((Endpoint.encode t ++ (encodeBytes echo ++
          (encodeNat e ++ encodeNat enr))).length - (encodeNat enr).length)) := by
  have hlt := endpoint_encode_length_le t ht
  have hlecho := encodeBytes_echo_length echo hecho
  have hle := encodeNat_u64_length e he
  have hlenr := encodeNat_u64_length enr henr
  have hp := encodeNat_length_pos enr
  simp only [pongExtBytes, PongMessageD.decode, List.append_assoc]
  rw [headerDecode_encode_list
    (Endpoint.encode t ++ (encodeBytes echo ++ (encodeNat e ++ encodeNat enr))).length
    (Endpoint.encode t ++ (encodeBytes echo ++ (encodeNat e ++ encodeNat enr)))
    (lt_of_le_of_lt (show _ ≤ 75 by simp only [List.length_append]; omega)
      (by norm_num))
    (le_refl _)]
  dsimp only
  rw [if_neg (show ¬((true : Bool) = false) by simp)]
  rw [endpoint_decode_encode t ht (encodeBytes echo ++ (encodeNat e ++ encodeNat enr))]
  dsimp only
  rw [decodeByteArray_echo echo (encodeNat e ++ encodeNat enr) hecho]
  dsimp only
  rw [decodeU64_encodeNat e (encodeNat enr) he]
  dsimp only
  rw [if_pos (show
    (Endpoint.encode t ++ (encodeBytes echo ++
        (encodeNat e ++ encodeNat enr))).length - (encodeNat enr).length ≠
      (Endpoint.encode t ++ (encodeBytes echo ++
        (encodeNat e ++ encodeNat enr))).length by
    simp only [List.length_append]; omega)]

theorem pongDEnr_decode_ext (t : Endpoint) (echo : Bytes) (e enr : Nat)
    (ht : t.WF) (hecho : echo.length = 32) (he : e < 2 ^ 64)
    (henr : enr < 2 ^ 64) :
    PongMessageDEnr.decode (pongExtBytes t echo e enr) =
      .ok (⟨t, echo, e, enr⟩, []) := by
  have hlt := endpoint_encode_length_le t ht
  have hlecho := encodeBytes_echo_length echo hecho
  have hle := encodeNat_u64_length e he
  have hlenr := encodeNat_u64_length enr henr
  have hdU : decodeU64 (encodeNat enr) = .ok (enr, []) := by
    have h := decodeU64_encodeNat enr [] henr
    rwa [List.append_nil] at h
  simp only [pongExtBytes, PongMessageDEnr.decode, List.append_assoc]
  rw [headerDecode_encode_list
    (Endpoint.encode t ++ (encodeBytes echo ++ (encodeNat e ++ encodeNat enr))).length
    (Endpoint.encode t ++ (encodeBytes echo ++ (encodeNat e ++ encodeNat enr)))
    (lt_of_le_of_lt (show _ ≤ 75 by simp only [List.length_append]; omega)
      (by norm_num))
    (le_refl _)]
  dsimp only
  rw [if_neg (show ¬((true : Bool) = false) by simp)]
  rw [endpoint_decode_encode t ht (encodeBytes echo ++ (encodeNat e ++ encodeNat enr))]
  dsimp only
  rw [decodeByteArray_echo echo (encodeNat e ++ encodeNat enr) hecho]
  dsimp only
  rw [decodeU64_encodeNat e (encodeNat enr) he]
  dsimp only
  rw [hdU]
  dsimp only
  rw [if_neg (show
    ¬((Endpoint.encode t ++ (encodeBytes echo ++
          (encodeNat e ++ encodeNat enr))).length - ([] : Bytes).length ≠
      (Endpoint.encode t ++ (encodeBytes echo ++
        (encodeNat e ++ encodeNat enr))).length) by
    simp only [List.length_append, List.length_nil]; omega)]

theorem pong_decode_encode (t : Endpoint) (echo : Bytes) (e : Nat)
    (ht : t.WF) (hecho : echo.length = 32) (he : e < 2 ^ 64) :
    PongMessage.decode (PongMessage.encode ⟨t, echo, e⟩) = .ok (⟨t, echo, e⟩, []) := by
  simp only [PongMessage.decode]
  rw [pongD_decode_encode t echo e ht hecho he]

theorem pong_decode_ext (t : Endpoint) (echo : Bytes) (e enr : Nat)
    (ht : t.WF) (hecho : echo.length = 32) (he : e < 2 ^ 64)
    (henr : enr < 2 ^ 64) :
    PongMessage.decode (pongExtBytes t echo e enr) = .ok (⟨t, echo, e⟩, []) := by
  simp only [PongMessage.decode]
  rw [pongD_decode_ext t echo e enr ht hecho he henr]
  dsimp only [DecodeError.isListLengthMismatch]
  rw [if_pos rfl]
  rw [pongDEnr_decode_ext t echo e enr ht hecho he henr]

end Devp2p

namespace Devp2p

/-! ## Field counting -/

theorem headerDecode_facts (buf : Bytes) (h : Header) (rest : Bytes)
    (heq : headerDecode buf = .ok (h, rest)) :
    h.payloadLength ≤ rest.length ∧ rest.length ≤ buf.length ∧
      1 ≤ (buf.length - rest.length) + h.payloadLength := by
  match buf with
  | [] => simp [headerDecode] at heq
  | b :: rest0 =>
    simp only [headerDecode] at heq
    repeat' split at heq
    all_goals
      first
        | (simp at heq; done)
        | (simp only [Except.ok.injEq, Prod.mk.injEq] at heq
           obtain ⟨rfl, rfl⟩ := heq
           simp only [List.length_cons, List.length_drop] at *
           omega)

theorem decodeUintSized_item (m : Nat) (buf : Bytes) (v : Nat) (r : Bytes)
    (heq : decodeUintSized m buf = .ok (v, r)) :
    ∃ h rest, headerDecode buf = .ok (h, rest) ∧ h.isList = false ∧
      r = rest.drop h.payloadLength := by
  simp only [decodeUintSized] at heq
  split at heq
  next e herr => simp at heq
  next h0 rest0 hhd =>
    by_cases hlist : h0.isList = true
    · rw [if_pos hlist] at heq; simp at heq
    · rw [if_neg hlist] at heq
      by_cases hover : m < h0.payloadLength
      · rw [if_pos hover] at heq; simp at heq
      · rw [if_neg hover] at heq
        by_cases hlead : (rest0.take h0.payloadLength).head? = some 0
        · rw [if_pos hlead] at heq; simp at heq
        · rw [if_neg hlead] at heq
          simp only [Except.ok.injEq, Prod.mk.injEq] at heq
          obtain ⟨-, rfl⟩ := heq
          exact ⟨h0, rest0, hhd, by simpa using hlist, rfl⟩

theorem decodeU16_item (buf : Bytes) (v : Nat) (r : Bytes)
    (heq : decodeU16 buf = .ok (v, r)) :
    ∃ h rest, headerDecode buf = .ok (h, rest) ∧ h.isList = false ∧
      r = rest.drop h.payloadLength :=
  decodeUintSized_item 2 buf v r heq

theorem decodeByteArray_item (n : Nat) (buf : Bytes) (bs : Bytes) (r : Bytes)
    (heq : decodeByteArray n buf = .ok (bs, r)) :
    ∃ h rest, headerDecode buf = .ok (h, rest) ∧ h.isList = false ∧
      r = rest.drop h.payloadLength := by
  simp only [decodeByteArray] at heq
  split at heq
  next e herr => simp at heq
  next h0 rest0 hhd =>
    by_cases hlist : h0.isList = true
    · rw [if_pos hlist] at heq; simp at heq
    · rw [if_neg hlist] at heq
      by_cases hn : h0.payloadLength ≠ n
      · rw [if_pos hn] at heq; simp at heq
      · rw [if_neg hn] at heq
        simp only [Except.ok.injEq, Prod.mk.injEq] at heq
        obtain ⟨-, rfl⟩ := heq
        refine ⟨h0, rest0, hhd, by simpa using hlist, ?_⟩
        rw [not_ne_iff.mp hn]

theorem Ip_decode_item (buf : Bytes) (a : Ip) (r : Bytes)
    (heq : Ip.decode buf = .ok (a, r)) :
    ∃ h rest, headerDecode buf = .ok (h, rest) ∧ h.isList = false ∧
      r = rest.drop h.payloadLength := by
  simp only [Ip.decode] at heq
  split at heq
  next e herr => simp at heq
  next h0 rest0 hhd =>
    by_cases h4 : h0.payloadLength = 0
    · rw [if_pos h4] at heq; simp at heq
    · rw [if_neg h4] at heq
      by_cases h5 : h0.payloadLength = 4
      · rw [if_pos h5] at heq
        split at heq
        next e herr => simp at heq
        next o rest1 hba =>
          simp only [Except.ok.injEq, Prod.mk.injEq] at heq
          obtain ⟨-, rfl⟩ := heq
          exact decodeByteArray_item 4 buf o rest1 hba
      · rw [if_neg h5] at heq
        by_cases h6 : h0.payloadLength = 16
        · rw [if_pos h6] at heq
          split at heq
          next e herr => simp at heq
          next o rest1 hba =>
            simp only [Except.ok.injEq, Prod.mk.injEq] at heq
            obtain ⟨-, rfl⟩ := heq
            exact decodeByteArray_item 16 buf o rest1 hba
        · rw [if_neg h6] at heq; simp at heq

theorem countFields_step (fuel rem : Nat) (buf : Bytes) (h : Header)
    (rest : Bytes) (hhd : headerDecode buf = .ok (h, rest))
    (hfuel : 1 ≤ fuel) (hrem : 1 ≤ rem)
    (hle : (buf.length - rest.length) + h.payloadLength ≤ rem) :
    countFields fuel rem buf =
      (countFields (fuel - 1)
        (rem - ((buf.length - rest.length) + h.payloadLength))
        (rest.drop h.payloadLength)).map (· + 1) := by
  obtain ⟨f, rfl⟩ : ∃ f, fuel = f + 1 := ⟨fuel - 1, by omega⟩
  obtain ⟨r0, rfl⟩ : ∃ r0, rem = r0 + 1 := ⟨rem - 1, by omega⟩
  simp only [countFields]
  rw [hhd]
  dsimp only
  rw [if_pos hle]
  have hf : f + 1 - 1 = f := by omega
  rw [hf]
  cases countFields f (r0 + 1 - ((buf.length - rest.length) + h.payloadLength))
      (rest.drop h.payloadLength) <;> rfl

theorem Endpoint.decode_fieldCount (buf : Bytes) (e : Endpoint) (r : Bytes)
    (heq : Endpoint.decode buf = .ok (e, r)) :
    outerFieldCount buf = some 3 := by
  simp only [Endpoint.decode] at heq
  split at heq
  next e0 herr => simp at heq
  next H b0 hhd =>
    split at heq
    · simp at heq
    next hlist =>
      split at heq
      next e1 herr => simp at heq
      next addr b1 hip =>
        split at heq
        next e2 herr => simp at heq
        next udp b2 hu =>
          split at heq
          next e3 herr => simp at heq
          next tcp b3 htc =>
            split at heq
            · simp at heq
            next hcons =>
              obtain ⟨h1, r1, hhd1, hl1, hb1⟩ := Ip_decode_item b0 addr b1 hip
              obtain ⟨h2, r2, hhd2, hl2, hb2⟩ := decodeU16_item b1 udp b2 hu
              obtain ⟨h3, r3, hhd3, hl3, hb3⟩ := decodeU16_item b2 tcp b3 htc
              obtain ⟨f1a, f1b, f1c⟩ := headerDecode_facts b0 h1 r1 hhd1
              obtain ⟨f2a, f2b, f2c⟩ := headerDecode_facts b1 h2 r2 hhd2
              obtain ⟨f3a, f3b, f3c⟩ := headerDecode_facts b2 h3 r3 hhd3
              obtain ⟨fa, fb, fc⟩ := headerDecode_facts buf H b0 hhd
              have hcons' : b0.length - b3.length = H.payloadLength :=
                not_ne_iff.mp hcons
              have e1len : b1.length = r1.length - h1.payloadLength := by
                rw [hb1]; exact List.length_drop _ _
              have e2len : b2.length = r2.length - h2.payloadLength := by
                rw [hb2]; exact List.length_drop _ _
              have e3len : b3.length = r3.length - h3.payloadLength := by
                rw [hb3]; exact List.length_drop _ _
              simp only [outerFieldCount]
              rw [hhd]
              dsimp only
              rw [if_pos (show H.isList = true by simpa using hlist)]
              rw [countFields_step b0.length H.payloadLength b0 h1 r1 hhd1
                (by omega) (by omega) (by omega)]
              rw [← hb1]
              rw [countFields_step (b0.length - 1)
                (H.payloadLength - ((b0.length - r1.length) + h1.payloadLength))
                b1 h2 r2 hhd2 (by omega) (by omega) (by omega)]
              rw [← hb2]
              rw [countFields_step (b0.length - 1 - 1)
                (H.payloadLength - ((b0.length - r1.length) + h1.payloadLength) -
                  ((b1.length - r2.length) + h2.payloadLength))
                b2 h3 r3 hhd3 (by omega) (by omega) (by omega)]
              rw [← hb3]
              rw [show H.payloadLength -
                  ((b0.length - r1.length) + h1.payloadLength) -
                  ((b1.length - r2.length) + h2.payloadLength) -
                  ((b2.length - r3.length) + h3.payloadLength) = 0 by omega]
              rw [show countFields (b0.length - 1 - 1 - 1) 0 b3 = some 0 from by
                simp [countFields]]
              rfl

end Devp2p

namespace Devp2p

/-! ## Inversion of the IP decoder -/

theorem decodeByteArray_of_header (buf : Bytes) (h : Header) (rest : Bytes)
    (n : Nat) (hhd : headerDecode buf = .ok (h, rest)) (hlist : h.isList = false)
    (hn : h.payloadLength = n) :
    decodeByteArray n buf = .ok (rest.take n, rest.drop n) := by
  simp only [decodeByteArray]
  rw [hhd]
  dsimp only
  rw [hlist, hn]
  rw [if_neg (by simp), if_neg (by simp)]

theorem decodeByteArray_unexpectedList (buf : Bytes) (h : Header) (rest : Bytes)
    (n : Nat) (hhd : headerDecode buf = .ok (h, rest)) (hlist : h.isList = true) :
    decodeByteArray n buf = .error .unexpectedList := by
  simp only [decodeByteArray]
  rw [hhd]
  dsimp only
  rw [if_pos hlist]

theorem Ip_decode_ok_inv (buf : Bytes) (a : Ip) (r : Bytes)
    (heq : Ip.decode buf = .ok (a, r)) :
    ∃ h rest, headerDecode buf = .ok (h, rest) ∧ h.isList = false ∧
      ((h.payloadLength = 4 ∧ a = .v4 (rest.take 4) ∧ r = rest.drop 4) ∨
       (h.payloadLength = 16 ∧ a = .v6 (rest.take 16) ∧ r = rest.drop 16)) := by
  simp only [Ip.decode] at heq
  split at heq
  next e herr => simp at heq
  next h0 rest0 hhd =>
    by_cases hz : h0.payloadLength = 0
    · rw [if_pos hz] at heq; simp at heq
    · rw [if_neg hz] at heq
      by_cases h4 : h0.payloadLength = 4
      · rw [if_pos h4] at heq
        split at heq
        next e herr => simp at heq
        next o rest1 hba =>
          by_cases hl : h0.isList = true
          · rw [decodeByteArray_unexpectedList buf h0 rest0 4 hhd hl] at hba
            simp at hba
          · have hl' : h0.isList = false := by simpa using hl
            rw [decodeByteArray_of_header buf h0 rest0 4 hhd hl' h4] at hba
            simp only [Except.ok.injEq, Prod.mk.injEq] at hba
            obtain ⟨rfl, rfl⟩ := hba
            simp only [Except.ok.injEq, Prod.mk.injEq] at heq
            obtain ⟨rfl, rfl⟩ := heq
            exact ⟨h0, rest0, hhd, hl', Or.inl ⟨h4, rfl, rfl⟩⟩
      · rw [if_neg h4] at heq
        by_cases h16 : h0.payloadLength = 16
        · rw [if_pos h16] at heq
          split at heq
          next e herr => simp at heq
          next o rest1 hba =>
            by_cases hl : h0.isList = true
            · rw [decodeByteArray_unexpectedList buf h0 rest0 16 hhd hl] at hba
              simp at hba
            · have hl' : h0.isList = false := by simpa using hl
              rw [decodeByteArray_of_header buf h0 rest0 16 hhd hl' h16] at hba
              simp only [Except.ok.injEq, Prod.mk.injEq] at hba
              obtain ⟨rfl, rfl⟩ := hba
              simp only [Except.ok.injEq, Prod.mk.injEq] at heq
              obtain ⟨rfl, rfl⟩ := heq
              exact ⟨h0, rest0, hhd, hl', Or.inr ⟨h16, rfl, rfl⟩⟩
        · rw [if_neg h16] at heq; simp at heq

end Devp2p

namespace Devp2p

/-! ## The specification claims -/

set_option maxRecDepth 1000000

/-- Claim C1: for every input byte sequence, `PingMessage` decode first
attempts the 4-field shape; if and only if that attempt fails with a
field-count (`ListLengthMismatch`) error it retries the same bytes as the
5-field shape, keeping only `{from, to, expire}`; any other failure kind of
the first attempt (e.g. the malformed 7-byte inner address of `badPingBytes`)
is returned unchanged without attempting the 5-field shape, and when both
attempts fail the error of the second attempt is returned (the `map` form of
the retry result). -/
theorem ping_decode_retry_policy :
    (∀ (buf : Bytes) (d : PingMessageD) (rest : Bytes),
        PingMessageD.decode buf = .ok (d, rest) →
        PingMessage.decode buf = .ok (⟨d.«from», d.«to», d.expire⟩, rest)) ∧
    (∀ (buf : Bytes) (exp got : Nat),
        PingMessageD.decode buf = .error (.listLengthMismatch exp got) →
        PingMessage.decode buf =
          (PingMessageDEnr.decode buf).map
            (fun p => (⟨p.1.«from», p.1.«to», p.1.expire⟩, p.2))) ∧
    (∀ (buf : Bytes) (err : DecodeError),
        PingMessageD.decode buf = .error err →
        err.isListLengthMismatch = false →
        PingMessage.decode buf = .error err) ∧
    PingMessageD.decode badPingBytes = .error (.custom "wrong IP address length") ∧
    PingMessage.decode badPingBytes = .error (.custom "wrong IP address length") := by
  refine ⟨?_, ?_, ?_, by decide, by decide⟩
  · intro buf d rest h
    simp only [PingMessage.decode]
    rw [h]
  · intro buf exp got h
    simp only [PingMessage.decode]
    rw [h]
    dsimp only [DecodeError.isListLengthMismatch]
    rw [if_pos rfl]
    cases h2 : PingMessageDEnr.decode buf with
    | error e2 => rfl
    | ok p =>
      obtain ⟨d, rest⟩ := p
      rfl
  · intro buf err h hfalse
    simp only [PingMessage.decode]
    rw [h]
    dsimp only
    rw [hfalse, if_neg (by simp)]

/-- Witness for C1: the three retry-policy branches at concrete inputs — a
well-formed 4-field Ping, a 5-field extended Ping, and a buffer whose first
attempt fails with a non-field-count error. -/
theorem ping_decode_retry_policy_witness :
    PingMessage.decode (PingMessage.encode exPing) =
      .ok (⟨exFrom, exTo, 1700000000⟩, []) ∧
    PingMessage.decode (pingExtBytes 4 exFrom exTo 123 456) =
      (PingMessageDEnr.decode (pingExtBytes 4 exFrom exTo 123 456)).map
        (fun p => (⟨p.1.«from», p.1.«to», p.1.expire⟩, p.2)) ∧
    PingMessage.decode [0xC0] = .error .inputTooShort := by
  refine ⟨?_, ?_, ?_⟩
  · exact ping_decode_retry_policy.1 (PingMessage.encode exPing)
      ⟨4, exFrom, exTo, 1700000000⟩ [] (by decide)
  · exact ping_decode_retry_policy.2.1 (pingExtBytes 4 exFrom exTo 123 456)
      29 26 (by decide)
  · exact ping_decode_retry_policy.2.2.1 [0xC0] .inputTooShort (by decide)
      (by decide)

/-- Claim C2: `PongMessage` decode applies the symmetric retry policy over the
3-field versus 4-field shapes: the 4-field retry happens only on a field-count
(`ListLengthMismatch`) failure of the 3-field attempt, any other failure is
propagated unchanged, and the decoded value keeps only `{to, echo, expire}`. -/
theorem pong_decode_retry_policy :
    (∀ (buf : Bytes) (d : PongMessageD) (rest : Bytes),
        PongMessageD.decode buf = .ok (d, rest) →
        PongMessage.decode buf = .ok (⟨d.«to», d.echo, d.expire⟩, rest)) ∧
    (∀ (buf : Bytes) (exp got : Nat),
        PongMessageD.decode buf = .error (.listLengthMismatch exp got) →
        PongMessage.decode buf =
          (PongMessageDEnr.decode buf).map
            (fun p => (⟨p.1.«to», p.1.echo, p.1.expire⟩, p.2))) ∧
    (∀ (buf : Bytes) (err : DecodeError),
        PongMessageD.decode buf = .error err →
        err.isListLengthMismatch = false →
        PongMessage.decode buf = .error err) := by
  refine ⟨?_, ?_, ?_⟩
  · intro buf d rest h
    simp only [PongMessage.decode]
    rw [h]
  · intro buf exp got h
    simp only [PongMessage.decode]
    rw [h]
    dsimp only [DecodeError.isListLengthMismatch]
    rw [if_pos rfl]
    cases h2 : PongMessageDEnr.decode buf with
    | error e2 => rfl
    | ok p =>
      obtain ⟨d, rest⟩ := p
      rfl
  · intro buf err h hfalse
    simp only [PongMessage.decode]
    rw [h]
    dsimp only
    rw [hfalse, if_neg (by simp)]

/-- Witness for C2: the three Pong retry-policy branches at concrete inputs. -/
theorem pong_decode_retry_policy_witness :
    PongMessage.decode (PongMessage.encode exPong) =
      .ok (⟨exTo, exEcho, 1700000000⟩, []) ∧
    PongMessage.decode (pongExtBytes exTo exEcho 123 456) =
      (PongMessageDEnr.decode (pongExtBytes exTo exEcho 123 456)).map
        (fun p => (⟨p.1.«to», p.1.echo, p.1.expire⟩, p.2)) ∧
    PongMessage.decode [0xC0] = .error .inputTooShort := by
  refine ⟨?_, ?_, ?_⟩
  · exact pong_decode_retry_policy.1 (PongMessage.encode exPong)
      ⟨exTo, exEcho, 1700000000⟩ [] (by decide)
  · exact pong_decode_retry_policy.2.1 (pongExtBytes exTo exEcho 123 456)
      49 46 (by decide)
  · exact pong_decode_retry_policy.2.2 [0xC0] .inputTooShort (by decide)
      (by decide)

/-- Claim C3: the byte encoding of the 5-field list `[4, from, to, expire,
enr_seq]` decodes successfully as a `PingMessage` equal to `{from, to,
expire}` for every valid field value (the `enr_seq` is ignored); likewise the
4-field list `[to, echo, expire, enr_seq]` decodes as the `PongMessage`
`{to, echo, expire}`. -/
theorem extension_tolerance :
    (∀ (f t : Endpoint) (expire enr : Nat), f.WF → t.WF →
        expire < 2 ^ 64 → enr < 2 ^ 64 →
        PingMessage.decode (pingExtBytes 4 f t expire enr) =
          .ok (⟨f, t, expire⟩, [])) ∧
    (∀ (t : Endpoint) (echo : Bytes) (expire enr : Nat), t.WF →
        echo.length = 32 → expire < 2 ^ 64 → enr < 2 ^ 64 →
        PongMessage.decode (pongExtBytes t echo expire enr) =
          .ok (⟨t, echo, expire⟩, [])) := by
  constructor
  · intro f t expire enr hf ht he henr
    exact ping_decode_ext 4 f t expire enr (by norm_num) hf ht he henr
  · intro t echo expire enr ht hecho he henr
    exact pong_decode_ext t echo expire enr ht hecho he henr

/-- Witness for C3: extension tolerance at concrete Ping and Pong values. -/
theorem extension_tolerance_witness :
    PingMessage.decode (pingExtBytes 4 exFrom exTo 123 456) =
      .ok (⟨exFrom, exTo, 123⟩, []) ∧
    PongMessage.decode (pongExtBytes exTo exEcho 123 456) =
      .ok (⟨exTo, exEcho, 123⟩, []) :=
  ⟨extension_tolerance.1 exFrom exTo 123 456 (by decide) (by decide) (by decide)
      (by decide),
   extension_tolerance.2 exTo exEcho 123 456 (by decide) (by decide) (by decide)
      (by decide)⟩

/-- Claim C4: for every `PingMessage` and `PongMessage` value, decoding the
bytes produced by the (always non-extended) encoder yields the identical
logical value. -/
theorem ping_pong_roundtrip :
    (∀ m : PingMessage, m.WF →
        PingMessage.decode (PingMessage.encode m) = .ok (m, [])) ∧
    (∀ m : PongMessage, m.WF →
        PongMessage.decode (PongMessage.encode m) = .ok (m, [])) := by
  constructor
  · intro m hm
    obtain ⟨f, t, e⟩ := m
    obtain ⟨hf, ht, he⟩ := hm
    exact ping_decode_wire 4 f t e (by norm_num) hf ht he
  · intro m hm
    obtain ⟨t, echo, e⟩ := m
    obtain ⟨ht, hecho, he⟩ := hm
    exact pong_decode_encode t echo e ht hecho.1 he

/-- Witness for C4: the round-trip at the concrete example messages. -/
theorem ping_pong_roundtrip_witness :
    PingMessage.decode (PingMessage.encode exPing) = .ok (exPing, []) ∧
    PongMessage.decode (PongMessage.encode exPong) = .ok (exPong, []) :=
  ⟨ping_pong_roundtrip.1 exPing (by decide),
   ping_pong_roundtrip.2 exPong (by decide)⟩

/-- Claim C5: the Ping encoder always emits exactly the 4-field wire shape —
a list whose first item is the literal version byte `4` followed by exactly
`from`, `to` and `expire` and nothing else (in particular no `enr_seq`), for
every message value; consequently its output parses as the 4-field decode
shape with wire version `4`, consuming the entire buffer. -/
theorem ping_encode_always_version4 :
    (∀ m : PingMessage,
        PingMessage.encode m =
          headerEncode ⟨true,
            (4 :: (Endpoint.encode m.«from» ++ Endpoint.encode m.«to» ++
              encodeNat m.expire)).length⟩ ++
          4 :: (Endpoint.encode m.«from» ++ Endpoint.encode m.«to» ++
            encodeNat m.expire)) ∧
    (∀ m : PingMessage, m.WF →
        PingMessageD.decode (PingMessage.encode m) =
          .ok (⟨4, m.«from», m.«to», m.expire⟩, [])) := by
  constructor
  · intro m
    simp only [PingMessage.encode, PingMessageE.encode]
    rw [show encodeNat 4 = [4] from by decide]
    simp only [List.singleton_append, List.cons_append, List.nil_append,
      List.append_assoc]
  · intro m hm
    obtain ⟨f, t, e⟩ := m
    obtain ⟨hf, ht, he⟩ := hm
    exact pingD_decode_wire 4 f t e (by norm_num) hf ht he

/-- Witness for C5: the encoder output of the example Ping parses as the
4-field shape with wire version 4. -/
theorem ping_encode_always_version4_witness :
    PingMessageD.decode (PingMessage.encode exPing) =
      .ok (⟨4, exFrom, exTo, 1700000000⟩, []) :=
  ping_encode_always_version4.2 exPing (by decide)

/-- Counterexample to C6 as stated: a list item of payload length 4
(`[0xC4, 1, 2, 3, 4]`) does not decode to an IPv4 value — the octet decoder
rejects it with `UnexpectedList` — although its length prefix announces a
payload of length 4. -/
theorem ip_decode_payload4_list_counterexample :
    headerDecode [0xC4, 1, 2, 3, 4] = .ok (⟨true, 4⟩, [1, 2, 3, 4]) ∧
    Ip.decode [0xC4, 1, 2, 3, 4] = .error .unexpectedList ∧
    Ip.decode [0xC4, 1, 2, 3, 4] ≠ .ok (.v4 [1, 2, 3, 4], []) := by decide

/-- Claim C6 (amended): IP decode branches exactly on the payload length of
the length prefix — length 0 gives the `Custom "empty"` error, length 4 (on a
byte-string item) gives an IPv4 value from exactly those 4 octets, length 16
likewise an IPv6 value, every other length gives the
`Custom "wrong IP address length"` error, and a *list* item of payload length
4 or 16 fails with `UnexpectedList`; a successful decode always comes from a
byte string of payload length exactly 4 or 16, never from a truncated or
padded payload. -/
theorem ip_decode_length_policy :
    (∀ (buf : Bytes) (h : Header) (rest : Bytes),
        headerDecode buf = .ok (h, rest) → h.payloadLength = 0 →
        Ip.decode buf = .error (.custom "empty")) ∧
    (∀ (buf : Bytes) (h : Header) (rest : Bytes),
        headerDecode buf = .ok (h, rest) → h.isList = false →
        h.payloadLength = 4 →
        Ip.decode buf = .ok (.v4 (rest.take 4), rest.drop 4)) ∧
    (∀ (buf : Bytes) (h : Header) (rest : Bytes),
        headerDecode buf = .ok (h, rest) → h.isList = false →
        h.payloadLength = 16 →
        Ip.decode buf = .ok (.v6 (rest.take 16), rest.drop 16)) ∧
    (∀ (buf : Bytes) (h : Header) (rest : Bytes),
        headerDecode buf = .ok (h, rest) → h.payloadLength ≠ 0 →
        h.payloadLength ≠ 4 → h.payloadLength ≠ 16 →
        Ip.decode buf = .error (.custom "wrong IP address length")) ∧
    (∀ (buf : Bytes) (h : Header) (rest : Bytes),
        headerDecode buf = .ok (h, rest) → h.isList = true →
        (h.payloadLength = 4 ∨ h.payloadLength = 16) →
        Ip.decode buf = .error .unexpectedList) ∧
    (∀ (buf : Bytes) (a : Ip) (r : Bytes), Ip.decode buf = .ok (a, r) →
        ∃ h rest, headerDecode buf = .ok (h, rest) ∧ h.isList = false ∧
          ((h.payloadLength = 4 ∧ a = .v4 (rest.take 4) ∧ r = rest.drop 4) ∨
           (h.payloadLength = 16 ∧ a = .v6 (rest.take 16) ∧ r = rest.drop 16))) ∧
    Ip.decode [0x80] = .error (.custom "empty") ∧
    Ip.decode (encodeBytes [1, 2, 3, 4, 5]) =
      .error (.custom "wrong IP address length") ∧
    Ip.decode (encodeBytes (List.replicate 15 1)) =
      .error (.custom "wrong IP address length") := by
  refine ⟨?_, ?_, ?_, ?_, ?_, Ip_decode_ok_inv, by decide, by decide, by decide⟩
  · intro buf h rest hhd hp
    simp only [Ip.decode]
    rw [hhd]
    dsimp only
    rw [if_pos hp]
  · intro buf h rest hhd hlist hp
    simp only [Ip.decode]
    rw [hhd]
    dsimp only
    rw [hp, if_neg (by omega), if_pos rfl,
      decodeByteArray_of_header buf h rest 4 hhd hlist hp]
  · intro buf h rest hhd hlist hp
    simp only [Ip.decode]
    rw [hhd]
    dsimp only
    rw [hp, if_neg (by omega), if_neg (by omega), if_pos rfl,
      decodeByteArray_of_header buf h rest 16 hhd hlist hp]
  · intro buf h rest hhd h0 h4 h16
    simp only [Ip.decode]
    rw [hhd]
    dsimp only
    rw [if_neg h0, if_neg h4, if_neg h16]
  · intro buf h rest hhd hlist hp
    simp only [Ip.decode]
    rw [hhd]
    dsimp only
    cases hp with
    | inl hp =>
      rw [hp, if_neg (by omega), if_pos rfl,
        decodeByteArray_unexpectedList buf h rest 4 hhd hlist]
    | inr hp =>
      rw [hp, if_neg (by omega), if_neg (by omega), if_pos rfl,
        decodeByteArray_unexpectedList buf h rest 16 hhd hlist]

/-- Witness for C6: the success branch at a concrete 4-octet string and the
empty branch at the empty string. -/
theorem ip_decode_length_policy_witness :
    Ip.decode [0x84, 9, 8, 7, 6] = .ok (.v4 [9, 8, 7, 6], []) ∧
    Ip.decode [0x80] = .error (.custom "empty") := by
  constructor
  · exact ip_decode_length_policy.2.1 [0x84, 9, 8, 7, 6] ⟨false, 4⟩ [9, 8, 7, 6]
      (by decide) (by decide) (by decide)
  · exact ip_decode_length_policy.2.2.2.2.2.2.1

/-- Claim C7: for every valid `Endpoint`, `FindNodeMessage` and
`NeighboursMessage` value, decoding the bytes produced by encoding it yields a
structurally equal value (for Neighbours this preserves the order and
multiplicity of the node sequence, which list equality captures). -/
theorem endpoint_findnode_neighbours_roundtrip :
    (∀ e : Endpoint, e.WF →
        Endpoint.decode (Endpoint.encode e) = .ok (e, [])) ∧
    (∀ m : FindNodeMessage, m.WF →
        FindNodeMessage.decode (FindNodeMessage.encode m) = .ok (m, [])) ∧
    (∀ m : NeighboursMessage, m.WF →
        NeighboursMessage.decode (NeighboursMessage.encode m) = .ok (m, [])) := by
  refine ⟨?_, ?_, ?_⟩
  · intro e he
    have h := endpoint_decode_encode e he []
    rwa [List.append_nil] at h
  · intro m hm
    have h := findNode_decode_encode m hm []
    rwa [List.append_nil] at h
  · intro m hm
    have h := neighbours_decode_encode m hm []
    rwa [List.append_nil] at h

/-- Witness for C7: the round-trips at the concrete example values, including
a Neighbours message with a duplicated node record. -/
theorem endpoint_findnode_neighbours_roundtrip_witness :
    Endpoint.decode (Endpoint.encode exFrom) = .ok (exFrom, []) ∧
    FindNodeMessage.decode (FindNodeMessage.encode exFind) = .ok (exFind, []) ∧
    NeighboursMessage.decode (NeighboursMessage.encode exNeigh) =
      .ok (exNeigh, []) :=
  ⟨endpoint_findnode_neighbours_roundtrip.1 exFrom (by decide),
   endpoint_findnode_neighbours_roundtrip.2.1 exFind (by decide),
   endpoint_findnode_neighbours_roundtrip.2.2 exNeigh (by decide)⟩

/-- Counterexample to C8 as stated: the valid empty record `[0xC0]` has 0
fields (not 3), yet `Endpoint` decode fails with `InputTooShort`, which is not
a field-count (`ListLengthMismatch`) error — so a wrong field count does not
always surface as a field-count error. -/
theorem endpoint_decode_empty_record_counterexample :
    outerFieldCount [0xC0] = some 0 ∧
    Endpoint.decode [0xC0] = .error .inputTooShort ∧
    DecodeError.isListLengthMismatch .inputTooShort = false := by decide

/-- Claim C8 (amended): `Endpoint` decode never produces a value from an
outer record of any field count other than exactly 3 — every successful
decode has an outer record of exactly 3 fields, and a record of any other
field count always fails (with a `ListLengthMismatch` error when one
well-formed field too many is present, as at `fourFieldEndpointBytes`, but
with the underlying field-level or truncation error otherwise, as at the
0-field record `[0xC0]`). -/
theorem endpoint_decode_field_count :
    (∀ (buf : Bytes) (e : Endpoint) (r : Bytes),
        Endpoint.decode buf = .ok (e, r) → outerFieldCount buf = some 3) ∧
    (∀ (buf : Bytes) (k : Nat), outerFieldCount buf = some k → k ≠ 3 →
        ∀ (e : Endpoint) (r : Bytes), Endpoint.decode buf ≠ .ok (e, r)) ∧
    Endpoint.decode fourFieldEndpointBytes = .error (.listLengthMismatch 8 7) ∧
    outerFieldCount fourFieldEndpointBytes = some 4 ∧
    Endpoint.decode [0xC0] = .error .inputTooShort ∧
    outerFieldCount [0xC0] = some 0 := by
  refine ⟨Endpoint.decode_fieldCount, ?_, by decide, by decide, by decide,
    by decide⟩
  intro buf k hk hk3 e r heq
  have h3 := Endpoint.decode_fieldCount buf e r heq
  rw [h3] at hk
  exact hk3 (Option.some.injEq _ _ ▸ hk).symm

/-- Witness for C8: a successful decode has exactly 3 outer fields, and the
0-field record is rejected. -/
theorem endpoint_decode_field_count_witness :
    outerFieldCount (Endpoint.encode exFrom) = some 3 ∧
    Endpoint.decode [0xC0] ≠ .ok (exFrom, []) := by
  constructor
  · exact endpoint_decode_field_count.1 (Endpoint.encode exFrom) exFrom []
      (by decide)
  · exact endpoint_decode_field_count.2.1 [0xC0] 0 (by decide) (by decide)
      exFrom []

/-- Claim C9: the encoded wire form of every `Endpoint` lists the fields in
the fixed order address, udp_port, tcp_port, and each port is encoded as the
minimal unsigned big-endian byte representation of its value under the
length-prefixed integer encoding (`beVal (beBytes p) = p` with no leading zero
byte, one payload byte for `1 ≤ p < 256` and the empty payload for `0`), not
as a fixed-width 2-byte field. -/
theorem endpoint_wire_order_minimal_ports :
    (∀ e : Endpoint,
        Endpoint.encode e =
          headerEncode ⟨true,
            (Ip.encode e.address ++ encodeBytes (beBytes e.udp_port) ++
              encodeBytes (beBytes e.tcp_port)).length⟩ ++
          (Ip.encode e.address ++ encodeBytes (beBytes e.udp_port) ++
            encodeBytes (beBytes e.tcp_port))) ∧
    (∀ p : Nat, beVal (beBytes p) = p) ∧
    (∀ p : Nat, (beBytes p).head? ≠ some 0) ∧
    (∀ p : Nat, 1 ≤ p → p < 256 → beBytes p = [p]) ∧
    beBytes 0 = [] := by
  refine ⟨?_, beVal_beBytes, beBytes_head?_ne_zero, ?_, rfl⟩
  · intro e
    rfl
  · intro p h1 h2
    exact beBytes_small p (by omega) h2

/-- Witness for C9: minimal big-endian encoding at the example port values. -/
theorem endpoint_wire_order_minimal_ports_witness :
    beVal (beBytes 30303) = 30303 ∧ beBytes 80 = [80] :=
  ⟨endpoint_wire_order_minimal_ports.2.1 30303,
   endpoint_wire_order_minimal_ports.2.2.2.1 80 (by decide) (by decide)⟩

/-- Claim C10: `PingMessage` decode does not validate the wire version field:
the encoding of the 4-field list `[v, from, to, expire]` decodes successfully
for every `u64` value `v`, and the decoded message is independent of `v`; two
inputs differing only in the version field, or only in a present `enr_seq`
field, decode to the same value. -/
theorem ping_decode_ignores_version :
    ∀ (v : Nat) (f t : Endpoint) (expire : Nat), v < 2 ^ 64 → f.WF → t.WF →
      expire < 2 ^ 64 →
      PingMessage.decode (pingWire v f t expire) = .ok (⟨f, t, expire⟩, []) ∧
      (∀ v2 : Nat, v2 < 2 ^ 64 →
        PingMessage.decode (pingWire v2 f t expire) =
          PingMessage.decode (pingWire v f t expire)) ∧
      ∀ enr : Nat, enr < 2 ^ 64 →
        PingMessage.decode (pingExtBytes v f t expire enr) =
          PingMessage.decode (pingWire v f t expire) := by
  intro v f t expire hv hf ht he
  have h1 := ping_decode_wire v f t expire hv hf ht he
  refine ⟨h1, ?_, ?_⟩
  · intro v2 hv2
    rw [ping_decode_wire v2 f t expire hv2 hf ht he, h1]
  · intro enr henr
    rw [ping_decode_ext v f t expire enr hv hf ht he henr, h1]

/-- Witness for C10: a non-standard version value 999 decodes to the same
message, and the variant with an appended `enr_seq` agrees with it. -/
theorem ping_decode_ignores_version_witness :
    PingMessage.decode (pingWire 999 exFrom exTo 5) =
      .ok (⟨exFrom, exTo, 5⟩, []) ∧
    PingMessage.decode (pingExtBytes 999 exFrom exTo 5 7) =
      PingMessage.decode (pingWire 999 exFrom exTo 5) := by
  have h := ping_decode_ignores_version 999 exFrom exTo 5 (by decide) (by decide)
    (by decide) (by decide)
  exact ⟨h.1, h.2.2 7 (by decide)⟩

end Devp2p
